import Mathlib

set_option maxRecDepth 100000

/-!
Verification of the healthcare-symptom-checker core
(`src/llm_wrapper.py`, `src/rule_based_v2.py`, `src/pydantic_models.py`)
against its natural-language specification.

Shallow embedding conventions:
* Python strings are `List Char` (ASCII-centric: `str.lower`, `\s`, `str.strip`
  are modelled on their ASCII behaviour, which covers every string constant and
  every character class the code manipulates).
* Python floats are modelled as exact decimal numbers (`PyNum`): every float
  literal in the program (0.0, 0.25, 0.33, 0.5, 0.75, 1.0) and every number
  produced by `json.loads` from a decimal numeral is an exact decimal; no
  rounding behaviour of binary floats is relied upon by any claim.
* Fallible Python code (raising exceptions) is modelled with `Except PyError`.
  The SQLite log store can fail at runtime (`sqlite3.connect` on the fixed
  `DB_PATH` raises when the directory is absent or unwritable); this
  environment fact is modelled by an explicit `dbOk : Bool` parameter.
* The OpenAI collaborator returns an arbitrary raw text; it is modelled by
  parameters `useOpenai : Bool` (the `USE_OPENAI and openai is not None`
  condition) and `apiOutcome : Option (List Char)` (`some t` = the provider
  call returned text `t`, `none` = it raised and the code falls back to the
  mock payload).
-/

/-- Shorthand turning a Lean string literal into the `List Char` representation
used for Python strings throughout this development. -/
def lc (s : String) : List Char := s.toList

/-- ASCII whitespace as recognised by Python's `str.strip`, `str.splitlines`
and the regex class `\s`: space, tab, newline, carriage return, form feed,
vertical tab. -/
def isPyWs (c : Char) : Bool :=
  c = ' ' || c = '\t' || c = '\n' || c = '\x0d' || c = '\x0c' || c = '\x0b'

/-- Python `str.lower` on the ASCII range: maps `A`-`Z` to `a`-`z`, leaves
every other character unchanged. -/
def pyLowerChar (c : Char) : Char :=
  if 'A' ≤ c ∧ c ≤ 'Z' then Char.ofNat (c.toNat + 32) else c

/-- Python `str.lower` lifted to strings. -/
def pyLower (s : List Char) : List Char := s.map pyLowerChar

/-- Python `str.strip()` (no argument): remove leading and trailing
whitespace. -/
def pyStrip (s : List Char) : List Char :=
  ((s.dropWhile isPyWs).reverse.dropWhile isPyWs).reverse

/-- Python `str.startswith(pat)`. -/
def pyStartsWith (s pat : List Char) : Bool := pat.isPrefixOf s

/-- Python `str.endswith(pat)`. -/
def pyEndsWith (s pat : List Char) : Bool := pat.reverse.isPrefixOf s.reverse

/-- Python's substring test `needle in hay`. -/
def listContains (hay needle : List Char) : Bool :=
  needle.isPrefixOf hay ||
    match hay with
    | [] => false
    | _ :: t => listContains t needle

/-- Fuel-driven worker for `pyReplace`; the fuel bounds the number of
characters consumed, so `s.length` is always sufficient. -/
def pyReplaceAux (pat rep : List Char) : Nat → List Char → List Char
  | 0, s => s
  | _ + 1, [] => []
  | f + 1, c :: rest =>
    if pat ≠ [] ∧ pat.isPrefixOf (c :: rest) then
      rep ++ pyReplaceAux pat rep f ((c :: rest).drop pat.length)
    else
      c :: pyReplaceAux pat rep f rest

/-- Python `s.replace(pat, rep)`: replace all non-overlapping occurrences,
scanning left to right.  (The program only ever calls it with non-empty
patterns.) -/
def pyReplace (s pat rep : List Char) : List Char :=
  pyReplaceAux pat rep s.length s

/-- Split a text into lines at `\n`, modelling Python `str.splitlines` on the
line separators that actually occur in this program's data. -/
def splitLinesNl (s : List Char) : List (List Char) :=
  let step := fun (c : Char) (acc : List Char × List (List Char)) =>
    if c = '\n' then ([], acc.1 :: acc.2) else (c :: acc.1, acc.2)
  let r := s.foldr step ([], [])
  r.1 :: r.2

/-- Python `"\n".join(lines)`. -/
def joinLinesNl : List (List Char) → List Char
  | [] => []
  | [l] => l
  | l :: ls => l ++ '\n' :: joinLinesNl ls

/-! ## rule_based_v2.py -/

/-- The `SYNONYMS` table of `rule_based_v2.py`, in source (dict-literal
insertion) order. -/
def SYNONYMS : List (List Char × List Char) :=
  [ (lc "throwing up", lc "vomiting"),
    (lc "throw up", lc "vomiting"),
    (lc "belly ache", lc "abdominal pain"),
    (lc "stomach ache", lc "abdominal pain"),
    (lc "feverish", lc "fever"),
    (lc "breathless", lc "shortness of breath"),
    (lc "light headed", lc "lightheaded"),
    (lc "soar throat", lc "sore throat"),
    (lc "soar", lc "sore"),
    (lc "feaver", lc "fever"),
    (lc "temprature", lc "temperature") ]

/-- The `RULES` table of `rule_based_v2.py`, in source (dict-literal
insertion) order. -/
def RULES : List (List Char × List (List Char)) :=
  [ (lc "fever", [lc "flu", lc "infection"]),
    (lc "sore throat", [lc "throat infection", lc "cold"]),
    (lc "vomiting", [lc "food poisoning", lc "gastroenteritis"]),
    (lc "cough", [lc "cold", lc "bronchitis"]),
    (lc "headache", [lc "migraine", lc "stress"]),
    (lc "fatigue", [lc "anemia", lc "stress", lc "sleep deprivation"]) ]

/-- `re.sub(r"[^a-z\s]", " ", text)`: keep lowercase letters and whitespace,
replace every other character by a space. -/
def keepAlphaWs (c : Char) : Char :=
  if ('a' ≤ c ∧ c ≤ 'z') ∨ isPyWs c then c else ' '

/-- `normalize_text` from `rule_based_v2.py`: lower-case, apply the synonym
substitutions in table order, scrub non-alphabetic characters to spaces,
strip. -/
def normalize_text (text : List Char) : List Char :=
  let t1 := pyLower text
  let t2 := SYNONYMS.foldl (fun t kv => pyReplace t kv.1 kv.2) t1
  pyStrip (t2.map keepAlphaWs)

/-! ## Exact decimal numbers (the Python floats of this program) -/

/-- Strip factors of 10 from the mantissa into the exponent, producing the
canonical representation (`e = 0`, or mantissa not divisible by 10). -/
def stripZeros : Int → Nat → Int × Nat
  | m, 0 => (m, 0)
  | m, e + 1 => if m % 10 = 0 then stripZeros (m / 10) e else (m, e + 1)

/-- An exact decimal number `m / 10^e`, the model of the Python floats
flowing through this program (all of them originate from decimal literals or
decimal JSON numerals).  Values are kept canonical (see `stripZeros`), so
structural equality coincides with numeric equality. -/
structure PyNum where
  m : Int
  e : Nat
deriving DecidableEq, Repr

/-- Build the canonical decimal `m / 10^e`. -/
def pynum (m : Int) (e : Nat) : PyNum :=
  let r := stripZeros m e
  ⟨r.1, r.2⟩

/-- Numeric strict order on decimals (`a < b`). -/
def PyNum.ltb (a b : PyNum) : Bool :=
  a.m * (10 : Int) ^ b.e < b.m * (10 : Int) ^ a.e

/-- A decimal is canonical when its exponent cannot be lowered. -/
def PyNum.canonical (a : PyNum) : Bool :=
  a.e = 0 || decide (a.m % 10 ≠ 0)

/-- `infer_conditions` from `rule_based_v2.py`: every rule keyword occurring
as a substring of the normalized text contributes all of its mapped
conditions at score 1.0, in table order. -/
def infer_conditions (symptom_text : List Char) : List (List Char × PyNum) :=
  let text := normalize_text symptom_text
  RULES.flatMap fun kc =>
    if listContains text kc.1 then kc.2.map (fun cond => (cond, pynum 1 0)) else []

/-! ## JSON values

The structured values produced by `json.loads`.  Objects are association
lists in insertion order; the parser builds them with `insertKey`, which
reproduces Python dict semantics (a repeated key overwrites the value in
place, keeping the original position).  Numbers are exact decimals; the
`NaN`/`Infinity` extensions and `\uXXXX` string escapes accepted by Python's
`json` module are outside the embedding (no claim involves them). -/

inductive Json where
  | null
  | bool (b : Bool)
  | num (q : PyNum)
  | str (s : List Char)
  | arr (items : List Json)
  | obj (fields : List (List Char × Json))

/-- First-match association lookup; on dict-shaped data built by `insertKey`
keys are unique, so this is Python `d[k]` / `d.get(k)`. -/
def lookupKey (fs : List (List Char × Json)) (k : List Char) : Option Json :=
  match fs with
  | [] => none
  | (k', v) :: rest => if k' = k then some v else lookupKey rest k

/-- Python `k in d`. -/
def hasKey (fs : List (List Char × Json)) (k : List Char) : Bool :=
  match fs with
  | [] => false
  | (k', _) :: rest => k' = k || hasKey rest k

/-- Python dict assignment `d[k] = v`: overwrite in place if the key exists,
otherwise append at the end (insertion order). -/
def insertKey (fs : List (List Char × Json)) (k : List Char) (v : Json) :
    List (List Char × Json) :=
  match fs with
  | [] => [(k, v)]
  | (k', v') :: rest => if k' = k then (k, v) :: rest else (k', v') :: insertKey rest k v

mutual
/-- Structural size of a JSON value, used as induction measure. -/
def sizeJson : Json → Nat
  | .null => 1
  | .bool _ => 1
  | .num _ => 1
  | .str _ => 1
  | .arr l => 1 + sizeItems l
  | .obj fs => 1 + sizeMembers fs
/-- Size of an item list. -/
def sizeItems : List Json → Nat
  | [] => 0
  | x :: xs => 1 + sizeJson x + sizeItems xs
/-- Size of a member list. -/
def sizeMembers : List (List Char × Json) → Nat
  | [] => 0
  | (_, v) :: xs => 1 + sizeJson v + sizeMembers xs
end

/-! ## Serialization (Modelled from the spec)

Modelled from the spec: the spec's round-trip property (§8) serializes a
`SymptomResponse` "to JSON"; the repository performs this through
`json.dumps` / pydantic, which are library code not under `src/`.  The
serializer below emits standard JSON: objects/arrays in order, strings with
`"` and `\` escaped, canonical decimals as `<int>` or `<int>e-<exp>`. -/

/-- The decimal digit character for `d < 10`. -/
def digitChar (d : Nat) : Char := Char.ofNat (48 + d)

/-- Big-endian decimal digits of `n` (fuel-driven; fuel `n` suffices). -/
def renderNatAux : Nat → Nat → List Char
  | 0, _ => []
  | _ + 1, 0 => []
  | f + 1, n => renderNatAux f (n / 10) ++ [digitChar (n % 10)]

/-- Decimal numeral of a natural number. -/
def renderNat (n : Nat) : List Char := if n = 0 then ['0'] else renderNatAux n n

/-- Decimal numeral of an integer. -/
def renderInt (n : Int) : List Char :=
  if n < 0 then '-' :: renderNat n.natAbs else renderNat n.toNat

/-- JSON text of an exact decimal: `m` when `e = 0`, else `me-e`. -/
def serializeNum (q : PyNum) : List Char :=
  if q.e = 0 then renderInt q.m else renderInt q.m ++ 'e' :: '-' :: renderNat q.e

/-- JSON string-body escaping of one character. -/
def escapeChar (c : Char) : List Char :=
  if c = '"' then ['\\', '"'] else if c = '\\' then ['\\', '\\'] else [c]

/-- JSON string-body escaping. -/
def escapeString (s : List Char) : List Char := s.flatMap escapeChar

mutual
/-- Serialize a JSON value to its text. -/
def serializeJson : Json → List Char
  | .null => lc "null"
  | .bool true => lc "true"
  | .bool false => lc "false"
  | .num q => serializeNum q
  | .str s => '"' :: escapeString s ++ ['"']
  | .arr l => '[' :: serItems l ++ [']']
  | .obj fs => '{' :: serMembers fs ++ ['}']
/-- Serialize array items, comma-separated. -/
def serItems : List Json → List Char
  | [] => []
  | [x] => serializeJson x
  | x :: xs => serializeJson x ++ ',' :: serItems xs
/-- Serialize object members, comma-separated. -/
def serMembers : List (List Char × Json) → List Char
  | [] => []
  | [(k, v)] => '"' :: escapeString k ++ '"' :: ':' :: serializeJson v
  | (k, v) :: xs => '"' :: escapeString k ++ '"' :: ':' :: serializeJson v ++ ',' :: serMembers xs
end

/-! ## Strict JSON parsing (`json.loads`)

A recursive-descent parser for the strict JSON grammar accepted by Python's
`json.loads` (RFC 8259 values; whitespace = space/tab/newline/return; no
trailing commas; no single quotes; leading-zero numerals rejected; raw
control characters in strings rejected).  Fuel decreases at every nesting
recursion; `input.length + 1` always suffices (`fuelJson_le_serLen` below
witnesses this on serializer output). -/

/-- JSON inter-token whitespace. -/
def isWsJ (c : Char) : Bool := c = ' ' || c = '\t' || c = '\n' || c = '\x0d'

/-- Skip JSON whitespace. -/
def skipWs (s : List Char) : List Char := s.dropWhile isWsJ

/-- Numeric value of a decimal digit character. -/
def digitVal (c : Char) : Option Nat :=
  if '0' ≤ c ∧ c ≤ '9' then some (c.toNat - 48) else none

/-- Greedily consume decimal digits. -/
def takeDigits : List Char → List Nat × List Char
  | [] => ([], [])
  | c :: rest =>
    match digitVal c with
    | some d => let r := takeDigits rest; (d :: r.1, r.2)
    | none => ([], c :: rest)

/-- Horner evaluation of big-endian digits. -/
def digitsToNat (ds : List Nat) : Nat := ds.foldl (fun a d => a * 10 + d) 0

/-- Unescape one JSON escape character (the `\uXXXX` family is outside the
embedding). -/
def unescapeChar (c : Char) : Option Char :=
  if c = '"' then some '"'
  else if c = '\\' then some '\\'
  else if c = '/' then some '/'
  else if c = 'n' then some '\n'
  else if c = 't' then some '\t'
  else if c = 'r' then some '\x0d'
  else if c = 'b' then some '\x08'
  else if c = 'f' then some '\x0c'
  else none

/-- Parse a JSON string body (the opening quote already consumed), returning
the decoded string and the rest of the input. -/
def parseStringBody : List Char → Option (List Char × List Char)
  | [] => none
  | c :: rest =>
    if c = '"' then some ([], rest)
    else if c = '\\' then
      match rest with
      | [] => none
      | e :: rest' =>
        match unescapeChar e with
        | none => none
        | some d =>
          match parseStringBody rest' with
          | none => none
          | some (s, r) => some (d :: s, r)
    else if c.toNat < 32 then none
    else
      match parseStringBody rest with
      | none => none
      | some (s, r) => some (c :: s, r)

/-- Parse the optional fraction part `.digits` of a numeral. -/
def parseFracPart (s : List Char) : Option (List Nat × List Char) :=
  match s with
  | [] => some ([], [])
  | c :: r =>
    if c = '.' then
      let fds := takeDigits r
      if fds.1 = [] then none else some (fds.1, fds.2)
    else some ([], c :: r)

/-- Parse the optional exponent part `(e|E)(+|-)?digits` of a numeral. -/
def parseExpPart (s : List Char) : Option (Int × List Char) :=
  match s with
  | [] => some (0, [])
  | c :: r =>
    if c = 'e' ∨ c = 'E' then
      let sgn : Bool × List Char :=
        match r with
        | [] => (false, r)
        | c2 :: r2 =>
          if c2 = '+' then (false, r2)
          else if c2 = '-' then (true, r2)
          else (false, c2 :: r2)
      let eds := takeDigits sgn.2
      if eds.1 = [] then none
      else some ((if sgn.1 then -(digitsToNat eds.1 : Int) else (digitsToNat eds.1 : Int)), eds.2)
    else some (0, c :: r)

/-- The digits/fraction/exponent stages of a strict JSON numeral (the sign
already consumed).  Leading zeros are rejected (`01` is not valid JSON). -/
def parseNumTail (neg : Bool) (s1 : List Char) : Option (PyNum × List Char) :=
  match takeDigits s1 with
  | (ids, s2) =>
    if ids = [] then none
    else if ids.head? = some 0 ∧ ids.length > 1 then none
    else
      match parseFracPart s2 with
      | none => none
      | some (fds, s3) =>
        match parseExpPart s3 with
        | none => none
        | some (ex, s4) =>
          let mant : Int := (digitsToNat (ids ++ fds) : Int)
          let mant := if neg then -mant else mant
          let e0 : Int := (fds.length : Int)
          some ((if e0 ≤ ex then pynum (mant * (10 : Int) ^ (ex - e0).toNat) 0
                 else pynum mant (e0 - ex).toNat), s4)

/-- Parse a strict JSON numeral starting at `s` (first char is `-` or a
digit), returning its exact decimal value. -/
def parseNumber (s : List Char) : Option (PyNum × List Char) :=
  if s.head? = some '-' then parseNumTail true s.tail else parseNumTail false s

/-- Does a character begin a JSON numeral? -/
def startsNumber (c : Char) : Bool := c = '-' || ('0' ≤ c && c ≤ '9')

mutual
/-- Parse one JSON value (after skipping leading whitespace). -/
def parseValue : Nat → List Char → Option (Json × List Char)
  | 0, _ => none
  | n + 1, s =>
    match skipWs s with
    | [] => none
    | c :: rest =>
      if c = '"' then
        match parseStringBody rest with
        | none => none
        | some (str, r) => some (.str str, r)
      else if c = '{' then
        if (skipWs rest).head? = some '}' then some (.obj [], (skipWs rest).tail)
        else
          match parseMembers n rest with
          | none => none
          | some (fs, r) => some (.obj (fs.foldl (fun m kv => insertKey m kv.1 kv.2) []), r)
      else if c = '[' then
        if (skipWs rest).head? = some ']' then some (.arr [], (skipWs rest).tail)
        else
          match parseItems n rest with
          | none => none
          | some (l, r) => some (.arr l, r)
      else if c = 't' then
        if pyStartsWith rest (lc "rue") then some (.bool true, rest.drop 3) else none
      else if c = 'f' then
        if pyStartsWith rest (lc "alse") then some (.bool false, rest.drop 4) else none
      else if c = 'n' then
        if pyStartsWith rest (lc "ull") then some (.null, rest.drop 3) else none
      else if startsNumber c then
        match parseNumber (c :: rest) with
        | none => none
        | some (q, r) => some (.num q, r)
      else none
  termination_by structural n => n
/-- Parse one or more `"key": value` members and the closing `}`. -/
def parseMembers : Nat → List Char → Option (List (List Char × Json) × List Char)
  | 0, _ => none
  | n + 1, s =>
    match skipWs s with
    | [] => none
    | c :: rest =>
      if c = '"' then
        match parseStringBody rest with
        | none => none
        | some (k, r1) =>
          match skipWs r1 with
          | [] => none
          | c2 :: r2 =>
            if c2 = ':' then
              match parseValue n r2 with
              | none => none
              | some (v, r3) =>
                match skipWs r3 with
                | [] => none
                | c3 :: r4 =>
                  if c3 = ',' then
                    match parseMembers n r4 with
                    | none => none
                    | some (fs, r5) => some ((k, v) :: fs, r5)
                  else if c3 = '}' then some ([(k, v)], r4)
                  else none
            else none
      else none
  termination_by structural n => n
/-- Parse one or more array items and the closing `]`. -/
def parseItems : Nat → List Char → Option (List Json × List Char)
  | 0, _ => none
  | n + 1, s =>
    match parseValue n s with
    | none => none
    | some (v, r1) =>
      match skipWs r1 with
      | [] => none
      | c2 :: r2 =>
        if c2 = ',' then
          match parseItems n r2 with
          | none => none
          | some (l, r3) => some (v :: l, r3)
        else if c2 = ']' then some ([v], r2)
        else none
  termination_by structural n => n
end

/-- `json.loads`: parse a complete JSON document (the whole input, up to
surrounding whitespace, must be consumed). -/
def json_loads (s : List Char) : Option Json :=
  match parseValue (s.length + 1) s with
  | none => none
  | some (j, rest) => if skipWs rest = [] then some j else none

/-! ## The repair layer (`try_load`, lines 172-183 of `llm_wrapper.py`) -/

/-- After a comma, skip `\s*` and accept a following `}` or `]` (the regex
`,\s*([}\]])` with the comma and whitespace deleted). -/
def stripWsClose (s : List Char) : Option (Char × List Char) :=
  match s.dropWhile isPyWs with
  | c :: rest => if c = '}' ∨ c = ']' then some (c, rest) else none
  | [] => none

/-- Fuel-driven worker for `decomma` (fuel `s.length` suffices: every step
consumes at least one character). -/
def decommaAux : Nat → List Char → List Char
  | 0, s => s
  | _ + 1, [] => []
  | f + 1, c :: rest =>
    if c = ',' then
      match stripWsClose rest with
      | some (cl, rest') => cl :: decommaAux f rest'
      | none => ',' :: decommaAux f rest
    else c :: decommaAux f rest

/-- `re.sub(r",\s*([}\]])", r"\1", s)`: delete every comma (with following
whitespace) that directly precedes a closing bracket, scanning left to
right. -/
def decomma (s : List Char) : List Char := decommaAux s.length s

/-- `s.replace("'", '"')`: the third repair strategy's quote normalization. -/
def dequote (s : List Char) : List Char :=
  s.map fun c => if c = '\x27' then '"' else c

/-- `try_load` from `parse_and_validate_json`: strict parse; on failure
remove trailing commas and retry; on failure additionally replace single
quotes by double quotes and retry; `none` models the final `json.loads`
raising after all strategies are exhausted. -/
def try_load (s : List Char) : Option Json :=
  match json_loads s with
  | some v => some v
  | none =>
    let s2 := decomma s
    match json_loads s2 with
    | some v => some v
    | none => json_loads (dequote s2)

/-! ## Errors (the exception kinds of `llm_wrapper.py`) -/

/-- The Python exceptions the program can raise: `ValueError` from the
extractor, `json.JSONDecodeError` from the repair layer, pydantic's
`ValidationError`, `AttributeError`/`TypeError` from duck-typing failures in
the rescue step, `IndexError` from `probable_conditions[0]`, SQLite errors
from `log_query`, and the `RuntimeError` of the rate-limit branch. -/
inductive PyError where
  | valueError
  | jsonDecodeError
  | validationError
  | attrError
  | typeError
  | indexError
  | dbError
  | runtimeError
deriving DecidableEq, Repr

/-! ## The text extractor (lines 144-169 of `parse_and_validate_json`) -/

/-- Walk forward from an opener, tracking the nesting depth of that bracket
type (string literals are *not* respected, exactly as in the source), and
return the accumulated balanced substring when the depth returns to zero. -/
def scanFrom (oC cC : Char) : List Char → Nat → List Char → Option (List Char)
  | [], _, _ => none
  | c :: rest, depth, acc =>
    if c = oC then scanFrom oC cC rest (depth + 1) (acc ++ [c])
    else if c = cC then
      if depth = 1 then some (acc ++ [c])
      else scanFrom oC cC rest (depth - 1) (acc ++ [c])
    else scanFrom oC cC rest depth (acc ++ [c])

/-- All balanced substrings for one bracket pair, one per occurrence of the
opener, in ascending start position (the `re.finditer` loop). -/
def bracketCandidates (oC cC : Char) (raw : List Char) : List (List Char) :=
  (List.range raw.length).filterMap fun i =>
    if raw.get? i = some oC then scanFrom oC cC (raw.drop i) 0 [] else none

/-- The extractor's candidate list: all `{...}` candidates, then all
`[...]` candidates (the outer loop iterates `[("{","}"), ("[","]")]`). -/
def candidates (raw : List Char) : List (List Char) :=
  bracketCandidates '{' '}' raw ++ bracketCandidates '[' ']' raw

/-- Python `max(candidates, key=len)`: first element of maximal length. -/
def pyMaxByLen : List (List Char) → Option (List Char)
  | [] => none
  | x :: xs => some (xs.foldl (fun best y => if y.length > best.length then y else best) x)

/-- The naive fallback slice from the first `{` to the last `}` (lines
165-167), `none` when no `{`, no `}`, or the last `}` does not lie strictly
after the first `{`. -/
def sliceFallback (raw : List Char) : Option (List Char) :=
  match raw.findIdx? (· = '{'), raw.reverse.findIdx? (· = '}') with
  | some fi, some ri =>
    let la := raw.length - 1 - ri
    if la > fi then some ((raw.drop fi).take (la + 1 - fi)) else none
  | _, _ => none

/-- Candidate selection of the extractor: the first longest balanced
substring of the candidate list, or the naive slice, or failure. -/
def extract_candidate (raw : List Char) : Option (List Char) :=
  match pyMaxByLen (candidates raw) with
  | some c => some c
  | none => sliceFallback raw

/-- Lines 144-147 of `parse_and_validate_json`: strip the raw text; if it
both starts and ends with a triple backtick fence, drop every line that
starts (after stripping) with a fence marker and re-strip. -/
def preprocess (raw_text : List Char) : List Char :=
  let raw := pyStrip raw_text
  if pyStartsWith raw (lc "```") ∧ pyEndsWith raw (lc "```") then
    pyStrip (joinLinesNl ((splitLinesNl raw).filter fun l => !pyStartsWith (pyStrip l) (lc "```")))
  else raw

/-! ## Field rescue (lines 185-203 of `parse_and_validate_json`) -/

/-- Python `str(...)` on the JSON values the rescue step can encounter.  For
a string it is the string itself; for the other shapes the exact Python
rendering is immaterial to the program (it is only compared, lower-cased,
against "high"/"medium"/"low", and Python renders numbers with digits and
`.-e`, booleans as `True`/`False`, `None` as `None`, containers with
brackets — none of which can equal those labels); renderings below preserve
exactly that property. -/
def pyStr : Json → List Char
  | .str s => s
  | .null => lc "None"
  | .bool true => lc "True"
  | .bool false => lc "False"
  | .num q => serializeNum q
  | .arr _ => lc "[list]"
  | .obj _ => lc "(dict)"

/-- Rescue of a single `probable_conditions` element (a parsed object):
if `relative_score` is absent, derive it from the lower-cased string of the
`confidence` value (0.75 / 0.5 / 0.25, else 0.33) and record that a rescue
happened; an element that already has the key is left untouched. -/
def rescuePc (pc : List (List Char × Json)) : List (List Char × Json) × Bool :=
  if hasKey pc (lc "relative_score") then (pc, false)
  else
    let conf := pyLower (pyStr ((lookupKey pc (lc "confidence")).getD (.str [])))
    let score : PyNum :=
      if conf = lc "high" then pynum 75 2
      else if conf = lc "medium" then pynum 5 1
      else if conf = lc "low" then pynum 25 2
      else pynum 33 2
    (insertKey pc (lc "relative_score") (.num score), true)

/-- Rescue every element of the `probable_conditions` list.  A non-object
element makes the Python loop raise (`"relative_score" not in pc` /
`pc.get`), modelled as an error. -/
def rescueList : List Json → Except PyError (List Json × Bool)
  | [] => .ok ([], false)
  | .obj pc :: rest =>
    let r1 := rescuePc pc
    match rescueList rest with
    | .error e => .error e
    | .ok (l, r2) => .ok (.obj r1.1 :: l, r1.2 || r2)
  | _ :: _ => .error .attrError

/-- Lines 185-203: look up `probable_conditions` (default `[]`), rescue each
element, and when any rescue occurred append the marker to `notes`
(`setdefault` then in-place assignment, with Python `.strip()`).  A
non-object top-level value raises `AttributeError` (`parsed.get`); a
non-list `probable_conditions` value makes the loop raise; a non-string
pre-existing `notes` value makes the `+` concatenation raise `TypeError`.
(Python would let an *empty* non-list iterable or a non-string `notes` slip
through the loop itself, but every such value is rejected by the validator
immediately afterwards, so the pipeline result is an error either way.) -/
def rescueParsed (parsed : Json) : Except PyError Json :=
  match parsed with
  | .obj fs =>
    match lookupKey fs (lc "probable_conditions") with
    | none => .ok (.obj fs)
    | some (.arr pcs) =>
      match rescueList pcs with
      | .error e => .error e
      | .ok (pcs', rescued) =>
        let fs1 := insertKey fs (lc "probable_conditions") (.arr pcs')
        if rescued then
          let fs2 := if hasKey fs1 (lc "notes") then fs1 else insertKey fs1 (lc "notes") (.str [])
          match lookupKey fs2 (lc "notes") with
          | some (.str old) =>
            .ok (.obj (insertKey fs2 (lc "notes")
              (.str (pyStrip (old ++ ' ' :: lc "parsed_and_rescued_relative_score")))))
          | _ => .error .typeError
        else .ok (.obj fs1)
    | some _ => .error .attrError
  | _ => .error .attrError

/-! ## The schema (pydantic_models.py) and validator -/

/-- `Condition` from `pydantic_models.py`. -/
structure Condition where
  condition : List Char
  rationale : List Char
  confidence : List Char
  relative_score : Option PyNum
deriving DecidableEq, Repr

/-- `SymptomResponse` from `pydantic_models.py`.  It declares exactly these
four fields; pydantic ignores unknown keys passed to the constructor (such
as `notes`). -/
structure SymptomResponse where
  input : List Char
  probable_conditions : List Condition
  recommended_next_steps : List (List Char)
  disclaimer : List Char
deriving DecidableEq, Repr

/-- Models Python `getattr(resp, "notes", None)` on the constructed model:
`SymptomResponse` declares no `notes` field and pydantic drops unknown
constructor keys, so the attribute never exists. -/
def response_notes (_ : SymptomResponse) : Option (List Char) := none

/-- Validate one element of `probable_conditions`: `condition`, `rationale`
and `confidence` are required strings; `relative_score` is an optional float
defaulting to 0.0 (an explicit `null` becomes `None`).  (pydantic v1's
lenient numeric/string coercions are not modelled; no claim feeds coercible
mistyped payloads to the validator.) -/
def validateCondition (j : Json) : Except PyError Condition :=
  match j with
  | .obj fs =>
    match lookupKey fs (lc "condition"), lookupKey fs (lc "rationale"),
          lookupKey fs (lc "confidence") with
    | some (.str c), some (.str ra), some (.str cf) =>
      match lookupKey fs (lc "relative_score") with
      | none => .ok ⟨c, ra, cf, some (pynum 0 0)⟩
      | some .null => .ok ⟨c, ra, cf, none⟩
      | some (.num q) => .ok ⟨c, ra, cf, some q⟩
      | some _ => .error .validationError
    | _, _, _ => .error .validationError
  | _ => .error .validationError

/-- Validate a list of conditions in order. -/
def validateConditions : List Json → Except PyError (List Condition)
  | [] => .ok []
  | j :: rest =>
    match validateCondition j with
    | .error e => .error e
    | .ok c =>
      match validateConditions rest with
      | .error e => .error e
      | .ok cs => .ok (c :: cs)

/-- Extract a list of strings (`recommended_next_steps`). -/
def validateStrList : List Json → Except PyError (List (List Char))
  | [] => .ok []
  | .str s :: rest =>
    match validateStrList rest with
    | .error e => .error e
    | .ok l => .ok (s :: l)
  | _ :: _ => .error .validationError

/-- `SymptomResponse(**parsed)`: construct the model from a parsed mapping;
missing/mistyped required fields raise `ValidationError`; unknown keys (for
example `notes`) are ignored. -/
def validateResponse (j : Json) : Except PyError SymptomResponse :=
  match j with
  | .obj fs =>
    match lookupKey fs (lc "input"), lookupKey fs (lc "probable_conditions"),
          lookupKey fs (lc "recommended_next_steps"), lookupKey fs (lc "disclaimer") with
    | some (.str inp), some (.arr pcs), some (.arr steps), some (.str d) =>
      match validateConditions pcs with
      | .error e => .error e
      | .ok cs =>
        match validateStrList steps with
        | .error e => .error e
        | .ok sts => .ok ⟨inp, cs, sts, d⟩
    | _, _, _, _ => .error .validationError
  | _ => .error .validationError

/-! ## `parse_and_validate_json` (lines 139-207) -/

/-- The pipeline up to and including field rescue: strip/unfence, extract a
candidate (`ValueError` when none), repair-parse it (`JSONDecodeError` when
all strategies fail), rescue missing `relative_score` fields and annotate
`notes`. -/
def parsed_and_rescued (raw_text : List Char) : Except PyError Json :=
  let raw := preprocess raw_text
  match extract_candidate raw with
  | none => .error .valueError
  | some candidate =>
    match try_load candidate with
    | none => .error .jsonDecodeError
    | some parsed => rescueParsed parsed

/-- `parse_and_validate_json`: extract, repair, rescue, validate. -/
def parse_and_validate_json (raw_text : List Char) : Except PyError SymptomResponse :=
  match parsed_and_rescued raw_text with
  | .error e => .error e
  | .ok rescued => validateResponse rescued

/-! ## Logging (`log_query`, lines 227-235) and the model-call collaborator -/

/-- One row of the `queries` table (the observable effect of `log_query`);
the `engine` field is the logged inference tier. -/
structure LogEntry where
  engine : List Char
  top_condition : List Char
  top_score : PyNum
  notes : List Char
deriving DecidableEq, Repr

/-- `log_query`: `_init_db`/`connect` fail when the SQLite store is
unavailable (`dbOk = false`), which raises before anything else; afterwards
`float(top_score)` raises `TypeError` when the passed score is Python `None`
(reachable via `getattr(top, "relative_score", 0.0)` on a condition whose
score was JSON `null`). -/
def log_query (dbOk : Bool) (engine top_condition : List Char)
    (top_score : Option PyNum) (notes : List Char) : Except PyError LogEntry :=
  if ¬ dbOk then .error .dbError
  else
    match top_score with
    | none => .error .typeError
    | some q => .ok ⟨engine, top_condition, q, notes⟩

/-- The `_AllowAll` rate limiter of the source: `allow()` is constantly
`True`, so the `RuntimeError("LLM rate limit exceeded")` branch of
`call_openai_llm` is unreachable in this program. -/
def LLM_RATE_LIMITER_allow : Bool := true

/-- The fixed JSON payload of `mock_llm` (as a structured value). -/
def mockPayload (symptoms : List Char) : Json :=
  .obj
    [ (lc "input", .str symptoms),
      (lc "probable_conditions", .arr
        [ .obj [ (lc "condition", .str (lc "Unclear — further questions required")),
                 (lc "rationale", .str (lc "Based on matching keywords.")),
                 (lc "confidence", .str (lc "low")),
                 (lc "relative_score", .num (pynum 0 0)) ] ]),
      (lc "recommended_next_steps", .arr
        [ .str (lc "Educational only. Monitor symptoms and consult a healthcare provider if worsening."),
          .str (lc "If severe or emergency signs: seek emergency care.") ]),
      (lc "disclaimer", .str (lc "Educational use only. Not medical advice.")) ]

/-- `mock_llm`: the serialized mock payload. -/
def mock_llm (symptoms : List Char) : List Char := serializeJson (mockPayload symptoms)

/-- `call_openai_llm`: without OpenAI configured it returns the mock text;
with OpenAI it first consults the rate limiter (raising `RuntimeError` on
denial — dead code here, see `LLM_RATE_LIMITER_allow`) and then returns
either the provider text or, when the provider call raised, the mock text.
File logging of raw outputs is wrapped in `try/except: pass` in the source
and has no observable effect in the model. -/
def call_openai_llm (useOpenai : Bool) (apiOutcome : Option (List Char))
    (symptoms : List Char) : Except PyError (List Char) :=
  if ¬ useOpenai then .ok (mock_llm symptoms)
  else if ¬ LLM_RATE_LIMITER_allow then .error .runtimeError
  else
    match apiOutcome with
    | some text => .ok text
    | none => .ok (mock_llm symptoms)

/-! ## The orchestrator (`get_safely_inferred`, lines 237-298) -/

/-- The emergency phrase list (line 247). -/
def emergencies : List (List Char) :=
  [ lc "chest pain", lc "severe chest pain", lc "difficulty breathing",
    lc "shortness of breath", lc "unconscious", lc "severe bleeding", lc "fainting" ]

/-- What one call of `get_safely_inferred` does, observably: the value
returned to the caller (or the exception that propagated), the rows written
to the log store, and whether the model-call collaborator was invoked. -/
structure OrchOutcome where
  result : Except PyError SymptomResponse
  logs : List LogEntry
  llmCalled : Bool
deriving Repr

/-- The fixed "Unclear" fallback response (lines 282-288 / 292-297; the two
sites differ only in the rationale text). -/
def fallbackResponse (symptoms rationale : List Char) : SymptomResponse :=
  ⟨ symptoms,
    [⟨lc "Unclear — further questions required", rationale, lc "low", some (pynum 0 0)⟩],
    [lc "Educational only. Consider seeing a clinician for evaluation."],
    lc "Educational only. Not medical advice." ⟩

/-- A short description of an exception, standing in for Python's `str(e)`
inside the `f"llm_parse_error:{str(e)}"` note. -/
def describeErr : PyError → List Char
  | .valueError => lc "Could not locate JSON in LLM output"
  | .jsonDecodeError => lc "JSONDecodeError"
  | .validationError => lc "ValidationError"
  | .attrError => lc "AttributeError"
  | .typeError => lc "TypeError"
  | .indexError => lc "IndexError"
  | .dbError => lc "OperationalError"
  | .runtimeError => lc "RuntimeError"

/-- The LLM / disabled tiers (lines 269-298).  Within the `try` block the
parse/validate call, the `probable_conditions[0]` indexing and the `llm`
log write can all raise; any such exception is caught and converted into the
fixed fallback response (whose own log write is *not* guarded).  When the
LLM is not allowed, the `no_llm` fallback is returned (its log write is
likewise unguarded). -/
def llmBranch (useOpenai : Bool) (apiOutcome : Option (List Char)) (dbOk : Bool)
    (symptoms : List Char) (allow_llm : Bool) : OrchOutcome :=
  if allow_llm then
    match call_openai_llm useOpenai apiOutcome symptoms with
    | .error e => ⟨.error e, [], true⟩
    | .ok raw =>
      let tried : Except PyError (SymptomResponse × LogEntry) :=
        match parse_and_validate_json raw with
        | .error e => .error e
        | .ok validated =>
          match validated.probable_conditions with
          | [] => .error .indexError
          | top :: _ =>
            match log_query dbOk (lc "llm") top.condition top.relative_score [] with
            | .error e => .error e
            | .ok entry => .ok (validated, entry)
      match tried with
      | .ok (validated, entry) => ⟨.ok validated, [entry], true⟩
      | .error e =>
        let notes := lc "llm_parse_error:" ++ describeErr e
        match log_query dbOk (lc "fallback") (lc "Unclear — further questions required")
            (some (pynum 0 0)) notes with
        | .error e2 => ⟨.error e2, [], true⟩
        | .ok entry =>
          ⟨.ok (fallbackResponse symptoms (lc "Fallback due to LLM parse/validation error.")),
           [entry], true⟩
  else
    match log_query dbOk (lc "no_llm") (lc "Unclear — further questions required")
        (some (pynum 0 0)) (lc "llm_disabled") with
    | .error e => ⟨.error e, [], false⟩
    | .ok entry =>
      ⟨.ok (fallbackResponse symptoms (lc "LLM disabled or no rules matched.")),
       [entry], false⟩

/-- The Condition the rule tier builds from one `(condition, score)` rule
match (line 263): confidence `medium` for score < 1.0, else `high`. -/
def mkRulePc (cs : List Char × PyNum) : Condition :=
  ⟨cs.1, lc "Matched rule keywords.",
   if PyNum.ltb cs.2 (pynum 1 0) then lc "medium" else lc "high", some cs.2⟩

/-- The single Condition of the emergency short-circuit (line 253). -/
def emergencyCondition : Condition :=
  ⟨ lc "Possible emergency — seek immediate care",
    lc "Emergency keyword matched.", lc "high", some (pynum 1 0) ⟩

/-- `get_safely_inferred`: emergency short-circuit on the lower-cased input,
then the rule tier, then the LLM / disabled tiers.  (The unused
`fuzzy_label_choices` parameter of the source is omitted.)  The emergency
and rule log writes are unguarded: their failure propagates to the
caller. -/
def get_safely_inferred (useOpenai : Bool) (apiOutcome : Option (List Char)) (dbOk : Bool)
    (symptoms : List Char) (allow_llm : Bool) : OrchOutcome :=
  let s := pyLower symptoms
  if emergencies.any (fun e => listContains s e) then
    match log_query dbOk (lc "emergency") emergencyCondition.condition
        (some (pynum 1 0)) (lc "emergency_short_circuit") with
    | .error e => ⟨.error e, [], false⟩
    | .ok entry =>
      ⟨.ok ⟨symptoms, [emergencyCondition],
            [lc "Seek emergency care immediately."],
            lc "Educational only. Not medical advice."⟩,
       [entry], false⟩
  else
    match infer_conditions symptoms with
    | (cond0, score0) :: restRules =>
      if PyNum.ltb (pynum 0 0) score0 then
        let pcs := ((cond0, score0) :: restRules).map mkRulePc
        let p0 := mkRulePc (cond0, score0)
        match log_query dbOk (lc "rule_based") p0.condition p0.relative_score
            (lc "rule_based_match") with
        | .error e => ⟨.error e, [], false⟩
        | .ok entry =>
          ⟨.ok ⟨symptoms, pcs,
                [lc "Educational only. Consider seeing a clinician for evaluation."],
                lc "Educational only. Not medical advice."⟩,
           [entry], false⟩
      else llmBranch useOpenai apiOutcome dbOk symptoms allow_llm
    | [] => llmBranch useOpenai apiOutcome dbOk symptoms allow_llm

/-! ## Serializing a SymptomResponse (for the round-trip property)

Modelled from the spec: §8's round-trip serializes a Validator-produced
`SymptomResponse` "to JSON"; the repository does this with pydantic /
`json.dumps`, library code not under `src/`.  `respToJson` renders the
record as the JSON mapping with its four declared fields in declaration
order (conditions likewise). -/

/-- The JSON mapping of a `Condition` (field order of `pydantic_models.py`). -/
def condToJson (c : Condition) : Json :=
  .obj
    [ (lc "condition", .str c.condition),
      (lc "rationale", .str c.rationale),
      (lc "confidence", .str c.confidence),
      (lc "relative_score", match c.relative_score with
        | none => .null
        | some q => .num q) ]

/-- The JSON mapping of a `SymptomResponse`. -/
def respToJson (r : SymptomResponse) : Json :=
  .obj
    [ (lc "input", .str r.input),
      (lc "probable_conditions", .arr (r.probable_conditions.map condToJson)),
      (lc "recommended_next_steps", .arr (r.recommended_next_steps.map .str)),
      (lc "disclaimer", .str r.disclaimer) ]

/-- JSON serialization of a `SymptomResponse`. -/
def serializeResponse (r : SymptomResponse) : List Char := serializeJson (respToJson r)

/-- A string is clean when it has no raw control characters (which strict
JSON forbids inside string literals) and no brace or bracket characters
(which confuse the extractor's literal-blind depth scan). -/
def strClean (s : List Char) : Bool :=
  s.all fun c => 32 ≤ c.toNat && c ≠ '{' && c ≠ '}' && c ≠ '[' && c ≠ ']'

/-- Cleanliness of a condition: clean strings and a canonical score. -/
def condClean (c : Condition) : Bool :=
  strClean c.condition && strClean c.rationale && strClean c.confidence &&
    (match c.relative_score with
     | none => true
     | some q => q.canonical)

/-- Cleanliness of a response: clean strings everywhere and canonical
scores. -/
def respClean (r : SymptomResponse) : Bool :=
  strClean r.input && r.probable_conditions.all condClean &&
    r.recommended_next_steps.all strClean && strClean r.disclaimer

/-! ## Auxiliary definitions used by the verification -/

mutual
/-- Fuel needed by `parseValue` on the serialization of a value (each
parser recursion strictly decreases fuel, nesting by one level per call). -/
def fuelJson : Json → Nat
  | .null => 1
  | .bool _ => 1
  | .num _ => 1
  | .str _ => 1
  | .arr l => 1 + fuelItems l
  | .obj fs => 1 + fuelMembers fs
def fuelItems : List Json → Nat
  | [] => 1
  | x :: xs => 1 + max (fuelJson x) (fuelItems xs)
def fuelMembers : List (List Char × Json) → Nat
  | [] => 1
  | (_, v) :: xs => 1 + max (fuelJson v) (fuelMembers xs)
end

mutual
/-- Cleanliness of a JSON value: clean strings (also as object keys, with
keys unique at every level, as any dict-originated value has) and canonical
decimals. -/
def cleanJson : Json → Bool
  | .null => true
  | .bool _ => true
  | .num q => q.canonical
  | .str s => strClean s
  | .arr l => cleanItems l
  | .obj fs => cleanMembersB fs
def cleanItems : List Json → Bool
  | [] => true
  | x :: xs => cleanJson x && cleanItems xs
def cleanMembersB : List (List Char × Json) → Bool
  | [] => true
  | (k, v) :: xs => strClean k && !hasKey xs k && cleanJson v && cleanMembersB xs
end

/-- The text following a serialized numeral may not continue the numeral:
no digit, decimal point or exponent letter at its head. -/
def numBoundary (rest : List Char) : Bool :=
  match rest.head? with
  | none => true
  | some c => (digitVal c).isNone && c ≠ '.' && c ≠ 'e' && c ≠ 'E'

/-- A segment is brace-neutral when the extractor's `{`/`}` depth scan
passes over it without completing, from any depth ≥ 1. -/
def braceSafe (x : List Char) : Prop :=
  ∀ d acc rest, 1 ≤ d →
    scanFrom '{' '}' (x ++ rest) d acc = scanFrom '{' '}' rest d (acc ++ x)

/-- Index of the first occurrence of `sub` as a substring of `raw`. -/
def firstOcc (raw sub : List Char) : Option Nat :=
  (List.range (raw.length + 1)).find? fun i => sub.isPrefixOf (raw.drop i)

/-! ## Concrete scenario inputs -/

/-- Spec scenario 4's model output payload: one condition missing
`relative_score`, confidence `medium`. -/
def scenario4Payload : Json :=
  .obj
    [ (lc "input", .str (lc "x")),
      (lc "probable_conditions", .arr
        [ .obj [ (lc "condition", .str (lc "c")),
                 (lc "rationale", .str (lc "r")),
                 (lc "confidence", .str (lc "medium")) ] ]),
      (lc "recommended_next_steps", .arr [ .str (lc "s") ]),
      (lc "disclaimer", .str (lc "d")) ]

/-- Spec scenario 4's raw model text: the payload wrapped in commentary and
a fenced code block. -/
def scenario4Raw : List Char :=
  lc "Sure, here is the result you asked for:\n```json\n" ++
    serializeJson scenario4Payload ++ lc "\n```\nHope this helps!"

/-- The response scenario 4 produces (score rescued to 0.5, `notes`
dropped by the pydantic constructor). -/
def scenario4Resp : SymptomResponse :=
  ⟨lc "x", [⟨lc "c", lc "r", lc "medium", some (pynum 5 1)⟩], [lc "s"], lc "d"⟩

/-- The extractor tie-break counterexample input: an earlier bracket
candidate and a later brace candidate of equal length. -/
def c6Raw : List Char := lc "[1] " ++ '{' :: '2' :: '}' :: []

/-- A Validator-producible response whose `input` contains a closing brace,
defeating the extractor's literal-blind depth scan on re-parse. -/
def c8Bad : SymptomResponse :=
  ⟨'}' :: [], [⟨lc "c", lc "r", lc "low", some (pynum 0 0)⟩], [lc "s"], lc "d"⟩

/-- A clean response used to witness the amended round-trip. -/
def c8Good : SymptomResponse :=
  ⟨ lc "vague tiredness",
    [⟨lc "flu", lc "keyword", lc "low", some (pynum 25 2)⟩,
     ⟨lc "cold", lc "keyword", lc "medium", none⟩],
    [lc "rest"], lc "educational" ⟩

/-- A JSON text that is valid except for one trailing comma before its
closing brace. -/
def trailingCommaText : List Char := '{' :: lc "\"a\": 1," ++ ['}']

/-- The `notes` entry of the rescued mapping (the stage right before the
pydantic constructor), when the pipeline reaches it. -/
def rescuedNotes (raw_text : List Char) : Option Json :=
  match parsed_and_rescued raw_text with
  | .ok (.obj fs) => lookupKey fs (lc "notes")
  | _ => none

/-! ## Supporting lemmas -/

theorem insertKey_of_not_hasKey (fs : List (List Char × Json)) (k : List Char) (v : Json)
    (h : hasKey fs k = false) : insertKey fs k v = fs ++ [(k, v)] := by
  induction fs with
  | nil => rfl
  | cons p rest ih =>
    obtain ⟨k', v'⟩ := p
    simp only [hasKey, Bool.or_eq_false_iff, decide_eq_false_iff_not] at h
    simp only [insertKey, if_neg h.1, List.cons_append, ih h.2]

theorem infer_scores_one (s : List Char) (p : List Char × PyNum)
    (h : p ∈ infer_conditions s) : p.2 = pynum 1 0 := by
  unfold infer_conditions at h
  rcases List.mem_flatMap.mp h with ⟨kc, _, hin⟩
  split at hin
  · rcases List.mem_map.mp hin with ⟨c, _, rfl⟩
    rfl
  · simp at hin

theorem infer_nonempty (s : List Char)
    (h : ∃ kc ∈ RULES, listContains (normalize_text s) kc.1 = true) :
    infer_conditions s ≠ [] := by
  rcases h with ⟨kc, hkc, hcon⟩
  have h2 : kc.2 ≠ [] := by
    fin_cases hkc <;> simp [lc]
  obtain ⟨c0, cs, hc⟩ := List.exists_cons_of_ne_nil h2
  apply List.ne_nil_of_mem (a := (c0, pynum 1 0))
  unfold infer_conditions
  refine List.mem_flatMap.mpr ⟨kc, hkc, ?_⟩
  rw [if_pos hcon, hc]
  exact List.mem_map.mpr ⟨c0, List.mem_cons_self _ _, rfl⟩

/-- Claim C4: Field Rescue is a deterministic function of the parsed value:
an element of `probable_conditions` that already has `relative_score` is
never overwritten, and an element missing it gets 0.75 for confidence label
"high", 0.5 for "medium", 0.25 for "low", and 0.33 for anything else
(including an absent or non-string `confidence`, whose Python `str()` never
lower-cases to one of the three labels), the new key being appended to the
mapping. -/
theorem rescue_policy (pc : List (List Char × Json)) :
    (hasKey pc (lc "relative_score") = true → rescuePc pc = (pc, false)) ∧
    (hasKey pc (lc "relative_score") = false →
      rescuePc pc =
        (pc ++ [(lc "relative_score", Json.num
          (if pyLower (pyStr ((lookupKey pc (lc "confidence")).getD (Json.str []))) = lc "high"
             then pynum 75 2
           else if pyLower (pyStr ((lookupKey pc (lc "confidence")).getD (Json.str []))) = lc "medium"
             then pynum 5 1
           else if pyLower (pyStr ((lookupKey pc (lc "confidence")).getD (Json.str []))) = lc "low"
             then pynum 25 2
           else pynum 33 2))], true)) := by
  constructor
  · intro h
    simp only [rescuePc, h, if_pos]
  · intro h
    simp only [rescuePc, h, Bool.false_eq_true, if_false, insertKey_of_not_hasKey _ _ _ h]

/-- Witness for C4 at a concrete element: confidence `Medium` (case folded)
and no `relative_score` yields an appended score of 0.5. -/
theorem rescue_policy_witness :
    rescuePc [(lc "confidence", Json.str (lc "Medium"))] =
      ([(lc "confidence", Json.str (lc "Medium")),
        (lc "relative_score", Json.num (pynum 5 1))], true) := by
  have h := (rescue_policy [(lc "confidence", Json.str (lc "Medium"))]).2 (by decide)
  exact h.trans (by rfl)

/-- Claim C7: the repair layer tries its strategies in order and stops at
the first success (strict parse; then trailing-comma removal; then
additionally quote normalization, whose failure is the final error), and on
a JSON text that is valid except for one trailing comma before a closing
brace, strategy 1 fails while strategy 2 succeeds and its result is
returned. -/
theorem try_load_spec :
    (∀ s v, json_loads s = some v → try_load s = some v) ∧
    (∀ s v, json_loads s = none → json_loads (decomma s) = some v → try_load s = some v) ∧
    (∀ s, json_loads s = none → json_loads (decomma s) = none →
      try_load s = json_loads (dequote (decomma s))) ∧
    (json_loads trailingCommaText = none ∧
      json_loads (decomma trailingCommaText) = some (.obj [(lc "a", .num (pynum 1 0))]) ∧
      try_load trailingCommaText = some (.obj [(lc "a", .num (pynum 1 0))])) := by
  refine ⟨?_, ?_, ?_, by rfl, by rfl, by rfl⟩
  · intro s v h
    simp only [try_load, h]
  · intro s v h1 h2
    simp only [try_load, h1, h2]
  · intro s h1 h2
    simp only [try_load, h1, h2]

/-- Witness for C7, applying the trailing-comma branch at the concrete
trailing-comma text. -/
theorem try_load_spec_witness :
    try_load trailingCommaText = some (.obj [(lc "a", .num (pynum 1 0))]) :=
  try_load_spec.2.1 trailingCommaText _ (by rfl) (by rfl)

theorem log_query_ok (e c : List Char) (q : PyNum) (n : List Char) :
    log_query true e c (some q) n = .ok ⟨e, c, q, n⟩ := rfl

theorem call_openai_llm_ok (u : Bool) (a : Option (List Char)) (s : List Char) :
    ∃ t, call_openai_llm u a s = .ok t := by
  unfold call_openai_llm LLM_RATE_LIMITER_allow
  cases u <;> cases a <;> simp

theorem llmBranch_total (u : Bool) (a : Option (List Char)) (symptoms : List Char)
    (allow : Bool) : ∃ r, (llmBranch u a true symptoms allow).result = .ok r := by
  simp only [llmBranch]
  by_cases hal : allow = true
  · rw [if_pos hal]
    rcases call_openai_llm_ok u a symptoms with ⟨t, ht⟩
    rw [ht]
    cases hp : parse_and_validate_json t with
    | error e =>
      simp only [hp, log_query_ok]
      exact ⟨_, rfl⟩
    | ok validated =>
      cases hpc : validated.probable_conditions with
      | nil =>
        simp only [hp, hpc, log_query_ok]
        exact ⟨_, rfl⟩
      | cons top tail =>
        cases hrs : top.relative_score with
        | none =>
          simp only [hp, hpc, hrs, log_query, log_query_ok]
          exact ⟨_, rfl⟩
        | some q =>
          simp only [hp, hpc, hrs, log_query_ok]
          exact ⟨_, rfl⟩
  · rw [if_neg hal, log_query_ok]
    exact ⟨_, rfl⟩

/-- Claim C1 counterexample: with the SQLite store unavailable (the fixed
`DB_PATH` directory absent or unwritable), the unguarded `log_query` call of
the emergency path raises and the exception propagates out of
`get_safely_inferred` — a logging error reaches the caller. -/
theorem orchestrator_unguarded_log :
    (get_safely_inferred true none false (lc "chest pain") true).result =
      .error .dbError := by rfl

/-- Claim C1 amended: when the log store is available, `get_safely_inferred`
is total — for every input text, every allow-llm flag and every behaviour of
the model-call collaborator it returns a well-formed `SymptomResponse`
(in particular the rate-limit `RuntimeError` is unreachable because the
source's `_AllowAll` limiter always allows, and all parse/validation errors
are caught). -/
theorem orchestrator_total (u : Bool) (a : Option (List Char)) (symptoms : List Char)
    (allow : Bool) :
    ∃ r : SymptomResponse, (get_safely_inferred u a true symptoms allow).result = .ok r := by
  simp only [get_safely_inferred]
  by_cases hany : (emergencies.any fun e => listContains (pyLower symptoms) e) = true
  · rw [if_pos hany, log_query_ok]
    exact ⟨_, rfl⟩
  · rw [if_neg hany]
    cases hr : infer_conditions symptoms with
    | nil => exact llmBranch_total u a symptoms allow
    | cons p rest =>
      obtain ⟨c0, s0⟩ := p
      by_cases hlt : PyNum.ltb (pynum 0 0) s0 = true
      · simp only [hlt, if_true, mkRulePc, log_query_ok]
        exact ⟨_, rfl⟩
      · simp only [hlt, Bool.false_eq_true, if_false]
        exact llmBranch_total u a symptoms allow

/-- Claim C2: an input whose lower-cased text contains an emergency phrase
short-circuits: the returned response has exactly the one emergency
Condition, its `relative_score` is 1.0, the single logged row has tier
`emergency`, and neither the rule table, the allow-llm flag nor the
collaborator play any role. -/
theorem emergency_tier (useOpenai : Bool) (apiOutcome : Option (List Char))
    (symptoms : List Char) (allow_llm : Bool)
    (h : ∃ e ∈ emergencies, listContains (pyLower symptoms) e = true) :
    get_safely_inferred useOpenai apiOutcome true symptoms allow_llm =
      ⟨.ok ⟨symptoms, [emergencyCondition],
            [lc "Seek emergency care immediately."],
            lc "Educational only. Not medical advice."⟩,
       [⟨lc "emergency", emergencyCondition.condition, pynum 1 0, lc "emergency_short_circuit"⟩],
       false⟩ ∧
    emergencyCondition.relative_score = some (pynum 1 0) := by
  have hany : (emergencies.any fun e => listContains (pyLower symptoms) e) = true := by
    rcases h with ⟨e, he, hc⟩
    exact List.any_eq_true.mpr ⟨e, he, hc⟩
  refine ⟨?_, rfl⟩
  simp only [get_safely_inferred]
  rw [if_pos hany, log_query_ok]

/-- Witness for C2 at the concrete input `"I have Chest Pain"`. -/
theorem emergency_tier_witness :
    get_safely_inferred false none true (lc "I have Chest Pain") true =
      ⟨.ok ⟨lc "I have Chest Pain", [emergencyCondition],
            [lc "Seek emergency care immediately."],
            lc "Educational only. Not medical advice."⟩,
       [⟨lc "emergency", emergencyCondition.condition, pynum 1 0, lc "emergency_short_circuit"⟩],
       false⟩ :=
  (emergency_tier false none (lc "I have Chest Pain") true (by decide)).1

/-- Claim C3: whenever some rule keyword occurs in the normalized input, the
model-call collaborator is never invoked, whatever the allow-llm flag, the
OpenAI configuration or the log store's health. -/
theorem rule_match_no_llm (useOpenai : Bool) (apiOutcome : Option (List Char)) (dbOk : Bool)
    (symptoms : List Char) (allow_llm : Bool)
    (h : ∃ kc ∈ RULES, listContains (normalize_text symptoms) kc.1 = true) :
    (get_safely_inferred useOpenai apiOutcome dbOk symptoms allow_llm).llmCalled = false := by
  simp only [get_safely_inferred]
  by_cases hany : (emergencies.any fun e => listContains (pyLower symptoms) e) = true
  · rw [if_pos hany]
    cases hl : log_query dbOk (lc "emergency") emergencyCondition.condition
        (some (pynum 1 0)) (lc "emergency_short_circuit") <;> simp [hl]
  · rw [if_neg hany]
    cases hr : infer_conditions symptoms with
    | nil => exact absurd hr (infer_nonempty symptoms h)
    | cons p rest =>
      have hs : p.2 = pynum 1 0 := infer_scores_one symptoms p (hr ▸ List.mem_cons_self _ _)
      obtain ⟨c0, s0⟩ := p
      simp only at hs
      subst hs
      simp only [if_pos (show PyNum.ltb (pynum 0 0) (pynum 1 0) = true by decide)]
      cases hl : log_query dbOk (lc "rule_based") (mkRulePc (c0, pynum 1 0)).condition
          (mkRulePc (c0, pynum 1 0)).relative_score (lc "rule_based_match") <;> simp [hl]

/-- Witness for C3 at the concrete input `"fever"`. -/
theorem rule_match_no_llm_witness :
    (get_safely_inferred true none true (lc "fever") true).llmCalled = false :=
  rule_match_no_llm true none true (lc "fever") true (by decide)

/-- Claim C9: the input `"fever and sore throat"` is answered by the rule
tier with exactly the Conditions `flu`, `infection`, `throat infection`,
`cold` in the rule table's key iteration order, each with score 1.0 and
confidence `high`, logging tier `rule_based`; and in general every Condition
the rule tier builds has confidence `high` and score 1.0, because the rules
only ever emit score 1.0. -/
theorem rule_tier_behaviour :
    (∀ (useOpenai : Bool) (apiOutcome : Option (List Char)) (allow_llm : Bool),
      get_safely_inferred useOpenai apiOutcome true (lc "fever and sore throat") allow_llm =
        ⟨.ok ⟨lc "fever and sore throat",
              [⟨lc "flu", lc "Matched rule keywords.", lc "high", some (pynum 1 0)⟩,
               ⟨lc "infection", lc "Matched rule keywords.", lc "high", some (pynum 1 0)⟩,
               ⟨lc "throat infection", lc "Matched rule keywords.", lc "high", some (pynum 1 0)⟩,
               ⟨lc "cold", lc "Matched rule keywords.", lc "high", some (pynum 1 0)⟩],
              [lc "Educational only. Consider seeing a clinician for evaluation."],
              lc "Educational only. Not medical advice."⟩,
         [⟨lc "rule_based", lc "flu", pynum 1 0, lc "rule_based_match"⟩],
         false⟩) ∧
    (∀ (symptoms : List Char) (c : Condition),
      c ∈ (infer_conditions symptoms).map mkRulePc →
      c.confidence = lc "high" ∧ c.relative_score = some (pynum 1 0)) := by
  constructor
  · intro u a al
    rfl
  · intro symptoms c hc
    rcases List.mem_map.mp hc with ⟨p, hp, rfl⟩
    have hs : p.2 = pynum 1 0 := infer_scores_one symptoms p hp
    refine ⟨?_, ?_⟩ <;>
      simp [mkRulePc, hs, show PyNum.ltb (pynum 1 0) (pynum 1 0) = false by decide]

/-- Witness for C9's general part at the rule tier's first condition for
input `"fever"`. -/
theorem rule_tier_behaviour_witness :
    (mkRulePc (lc "flu", pynum 1 0)).confidence = lc "high" ∧
    (mkRulePc (lc "flu", pynum 1 0)).relative_score = some (pynum 1 0) :=
  rule_tier_behaviour.2 (lc "fever") (mkRulePc (lc "flu", pynum 1 0)) (by decide)

theorem llmBranch_ok_nonempty (u : Bool) (a : Option (List Char)) (db : Bool)
    (symptoms : List Char) (allow : Bool) (r : SymptomResponse)
    (h : (llmBranch u a db symptoms allow).result = .ok r) :
    r.probable_conditions ≠ [] := by
  simp only [llmBranch] at h
  by_cases hal : allow = true
  · rw [if_pos hal] at h
    cases hc : call_openai_llm u a symptoms with
    | error e => rw [hc] at h; simp at h
    | ok raw =>
      rw [hc] at h
      cases hp : parse_and_validate_json raw with
      | error e =>
        simp only [hp] at h
        cases hl : log_query db (lc "fallback") (lc "Unclear — further questions required")
            (some (pynum 0 0)) (lc "llm_parse_error:" ++ describeErr e) with
        | error e2 => rw [hl] at h; simp at h
        | ok entry =>
          rw [hl] at h
          simp only [Except.ok.injEq] at h
          subst h
          simp [fallbackResponse]
      | ok validated =>
        cases hpc : validated.probable_conditions with
        | nil =>
          simp only [hp, hpc] at h
          cases hl : log_query db (lc "fallback") (lc "Unclear — further questions required")
              (some (pynum 0 0)) (lc "llm_parse_error:" ++ describeErr PyError.indexError) with
          | error e2 => rw [hl] at h; simp at h
          | ok entry =>
            rw [hl] at h
            simp only [Except.ok.injEq] at h
            subst h
            simp [fallbackResponse]
        | cons top tail =>
          simp only [hp, hpc] at h
          cases hl : log_query db (lc "llm") top.condition top.relative_score [] with
          | error e2 =>
            simp only [hl] at h
            cases hl2 : log_query db (lc "fallback") (lc "Unclear — further questions required")
                (some (pynum 0 0)) (lc "llm_parse_error:" ++ describeErr e2) with
            | error e3 => rw [hl2] at h; simp at h
            | ok entry =>
              rw [hl2] at h
              simp only [Except.ok.injEq] at h
              subst h
              simp [fallbackResponse]
          | ok entry =>
            simp only [hl, Except.ok.injEq] at h
            subst h
            simp [hpc]
  · rw [if_neg hal] at h
    cases hl : log_query db (lc "no_llm") (lc "Unclear — further questions required")
        (some (pynum 0 0)) (lc "llm_disabled") with
    | error e => rw [hl] at h; simp at h
    | ok entry =>
      rw [hl] at h
      simp only [Except.ok.injEq] at h
      subst h
      simp [fallbackResponse]

/-- Claim C10: every `SymptomResponse` actually returned by
`get_safely_inferred` has at least one Condition — on the LLM-success path a
validated but empty `probable_conditions` makes the guarded
`probable_conditions[0]` indexing raise, diverting to the fixed fallback. -/
theorem response_nonempty (useOpenai : Bool) (apiOutcome : Option (List Char)) (dbOk : Bool)
    (symptoms : List Char) (allow_llm : Bool) (r : SymptomResponse)
    (h : (get_safely_inferred useOpenai apiOutcome dbOk symptoms allow_llm).result = .ok r) :
    r.probable_conditions ≠ [] := by
  simp only [get_safely_inferred] at h
  by_cases hany : (emergencies.any fun e => listContains (pyLower symptoms) e) = true
  · rw [if_pos hany] at h
    cases hl : log_query dbOk (lc "emergency") emergencyCondition.condition
        (some (pynum 1 0)) (lc "emergency_short_circuit") with
    | error e => rw [hl] at h; simp at h
    | ok entry =>
      rw [hl] at h
      simp only [Except.ok.injEq] at h
      subst h
      simp
  · rw [if_neg hany] at h
    cases hr : infer_conditions symptoms with
    | nil =>
      rw [hr] at h
      exact llmBranch_ok_nonempty _ _ _ _ _ _ h
    | cons p rest =>
      rw [hr] at h
      obtain ⟨c0, s0⟩ := p
      by_cases hlt : PyNum.ltb (pynum 0 0) s0 = true
      · simp only [hlt, if_true] at h
        cases hl : log_query dbOk (lc "rule_based") (mkRulePc (c0, s0)).condition
            (mkRulePc (c0, s0)).relative_score (lc "rule_based_match") with
        | error e => rw [hl] at h; simp at h
        | ok entry =>
          rw [hl] at h
          simp only [Except.ok.injEq] at h
          subst h
          simp
      · simp only [hlt, Bool.false_eq_true, if_false] at h
        exact llmBranch_ok_nonempty _ _ _ _ _ _ h

/-- Witness for C10 on the `no_llm` path at input `"vague tiredness"`. -/
theorem response_nonempty_witness :
    (fallbackResponse (lc "vague tiredness")
        (lc "LLM disabled or no rules matched.")).probable_conditions ≠ [] :=
  response_nonempty false none true (lc "vague tiredness") false
    (fallbackResponse (lc "vague tiredness") (lc "LLM disabled or no rules matched.")) (by rfl)

/-- Claim C5 counterexample: on spec scenario 4's raw text the pipeline
succeeds and rescues the Condition's `relative_score` to 0.5, but the
returned `SymptomResponse` carries no `notes` at all — `pydantic_models.py`
declares no `notes` field and pydantic drops unknown constructor keys, so
the marker text is not on the returned response. -/
theorem scenario4_notes_dropped :
    parse_and_validate_json scenario4Raw = .ok scenario4Resp ∧
    scenario4Resp.probable_conditions.map Condition.relative_score = [some (pynum 5 1)] ∧
    response_notes scenario4Resp = none := ⟨rfl, rfl, rfl⟩

/-- Claim C5 amended: the rescued parsed mapping (the stage before the
pydantic constructor) does carry `notes = "parsed_and_rescued_relative_score"`
and the validated response's Condition has `relative_score = 0.5`; the
`notes` entry is then dropped by the constructor and absent from the
returned response. -/
theorem scenario4_rescued_marker :
    rescuedNotes scenario4Raw = some (.str (lc "parsed_and_rescued_relative_score")) ∧
    parse_and_validate_json scenario4Raw = .ok scenario4Resp ∧
    scenario4Resp.probable_conditions.map Condition.relative_score = [some (pynum 5 1)] ∧
    response_notes scenario4Resp = none := ⟨rfl, rfl, rfl, rfl⟩

/-- Claim C6 counterexample: on `"[1] {2}"` both bracket types yield a
balanced candidate of length 3; the bracket one occurs first in the input
(index 0 versus 4), yet the extractor selects the brace one — ties are not
broken by first occurrence in the input string. -/
theorem extractor_tiebreak_cex :
    extract_candidate c6Raw = some ('{' :: '2' :: '}' :: []) ∧
    lc "[1]" ∈ candidates c6Raw ∧
    ('{' :: '2' :: '}' :: []) ∈ candidates c6Raw ∧
    (lc "[1]").length = ('{' :: '2' :: '}' :: []).length ∧
    firstOcc c6Raw (lc "[1]") = some 0 ∧
    firstOcc c6Raw ('{' :: '2' :: '}' :: []) = some 4 := by
  refine ⟨rfl, by decide, by decide, rfl, rfl, rfl⟩

theorem pyMaxFold_spec (x : List Char) (xs : List (List Char)) :
    ∃ pre post,
      x :: xs = pre ++ (xs.foldl (fun best y => if y.length > best.length then y else best) x) :: post ∧
      (∀ d ∈ pre, d.length < (xs.foldl (fun best y => if y.length > best.length then y else best) x).length) ∧
      (∀ d ∈ post, d.length ≤ (xs.foldl (fun best y => if y.length > best.length then y else best) x).length) := by
  induction xs generalizing x with
  | nil => exact ⟨[], [], rfl, by simp, by simp⟩
  | cons y ys ih =>
    have hfold : (y :: ys).foldl (fun best y => if y.length > best.length then y else best) x =
        ys.foldl (fun best y => if y.length > best.length then y else best)
          (if y.length > x.length then y else x) := rfl
    by_cases hxy : y.length > x.length
    · rcases ih y with ⟨pre', post', hdec, hpre, hpost⟩
      have hmax : ∀ d ∈ y :: ys,
          d.length ≤ (ys.foldl (fun best y => if y.length > best.length then y else best) y).length := by
        intro d hd
        rw [hdec] at hd
        rcases List.mem_append.mp hd with h1 | h1
        · exact le_of_lt (hpre d h1)
        · rcases List.mem_cons.mp h1 with rfl | h2
          · exact le_refl _
          · exact hpost d h2
      refine ⟨x :: pre', post', ?_, ?_, ?_⟩
      · rw [hfold, if_pos hxy, List.cons_append, ← hdec]
      · intro d hd
        rw [hfold, if_pos hxy]
        rcases List.mem_cons.mp hd with rfl | h2
        · exact lt_of_lt_of_le hxy (hmax y (List.mem_cons_self _ _))
        · exact hpre d h2
      · intro d hd
        rw [hfold, if_pos hxy]
        exact hpost d hd
    · rcases ih x with ⟨pre', post', hdec, hpre, hpost⟩
      have hylen : y.length ≤ x.length := Nat.le_of_not_lt hxy
      cases pre' with
      | nil =>
        simp only [List.nil_append] at hdec
        obtain ⟨hcx, hpostys⟩ := List.cons_eq_cons.mp hdec
        refine ⟨[], y :: ys, ?_, by simp, ?_⟩
        · rw [hfold, if_neg hxy, List.nil_append, ← hcx]
        · intro d hd
          rw [hfold, if_neg hxy, ← hcx]
          rcases List.mem_cons.mp hd with rfl | h2
          · exact hylen
          · rw [hpostys] at h2
            exact le_trans (hpost d h2) (le_of_eq (by rw [← hcx]))
      | cons p0 pre'' =>
        obtain ⟨hp0, hys⟩ := List.cons_eq_cons.mp hdec
        refine ⟨x :: y :: pre'', post', ?_, ?_, ?_⟩
        · rw [hfold, if_neg hxy]
          simp only [List.cons_append]
          exact congrArg (fun l => x :: y :: l) hys
        · intro d hd
          rw [hfold, if_neg hxy]
          have hxlt : x.length <
              (ys.foldl (fun best y => if y.length > best.length then y else best) x).length := by
            have := hpre p0 (List.mem_cons_self _ _)
            rwa [← hp0] at this
          rcases List.mem_cons.mp hd with rfl | h2
          · exact hxlt
          · rcases List.mem_cons.mp h2 with rfl | h3
            · exact lt_of_le_of_lt hylen hxlt
            · exact hpre d (List.mem_cons.mpr (Or.inr h3))
        · intro d hd
          rw [hfold, if_neg hxy]
          exact hpost d hd

/-- Claim C6 amended: the extractor selects the first longest element of its
candidate list, whose order is all `{...}` candidates (by start position)
followed by all `[...]` candidates (by start position) — so ties are broken
by bracket type first and only then by occurrence order; when no balanced
substring exists it returns the naive first-`{`-to-last-`}` slice, and it
fails exactly when both the candidate list and that slice are empty. -/
theorem extractor_selection (raw : List Char) :
    (∀ c, extract_candidate raw = some c → candidates raw ≠ [] →
      ∃ pre post, candidates raw = pre ++ c :: post ∧
        (∀ d ∈ pre, d.length < c.length) ∧ (∀ d ∈ post, d.length ≤ c.length)) ∧
    (candidates raw = [] → extract_candidate raw = sliceFallback raw) ∧
    (extract_candidate raw = none ↔ candidates raw = [] ∧ sliceFallback raw = none) := by
  cases hc : candidates raw with
  | nil =>
    refine ⟨fun c _ hne => absurd rfl hne, fun _ => ?_, ?_⟩
    · simp [extract_candidate, hc, pyMaxByLen]
    · simp [extract_candidate, hc, pyMaxByLen]
  | cons x xs =>
    have hx : extract_candidate raw =
        some (xs.foldl (fun best y => if y.length > best.length then y else best) x) := by
      simp [extract_candidate, hc, pyMaxByLen]
    refine ⟨?_, fun h => absurd h (by simp [hc]), ?_⟩
    · intro c h _
      rw [hx] at h
      rcases pyMaxFold_spec x xs with ⟨pre, post, hdec, hpre, hpost⟩
      rcases Option.some.injEq _ _ ▸ h with rfl
      exact ⟨pre, post, hc ▸ hdec, hpre, hpost⟩
    · rw [hx]
      simp [hc]

/-- Witness for C6's amended selection at the concrete input `"[1] {2}"`. -/
theorem extractor_selection_witness :
    ∃ pre post, candidates c6Raw = pre ++ ('{' :: '2' :: '}' :: []) :: post ∧
      (∀ d ∈ pre, d.length < 3) ∧ (∀ d ∈ post, d.length ≤ 3) := by
  have h := (extractor_selection c6Raw).1 ('{' :: '2' :: '}' :: []) (by rfl) (by decide)
  simpa using h

/-! ## Round-trip machinery: numerals -/

theorem digitVal_digitChar {d : Nat} (h : d < 10) : digitVal (digitChar d) = some d := by
  interval_cases d <;> decide

theorem digitChar_facts {d : Nat} (h : d < 10) :
    isWsJ (digitChar d) = false ∧ startsNumber (digitChar d) = true ∧
    digitChar d ≠ '"' ∧ digitChar d ≠ '{' ∧ digitChar d ≠ '[' ∧
    digitChar d ≠ 't' ∧ digitChar d ≠ 'f' ∧ digitChar d ≠ 'n' ∧
    digitChar d ≠ '-' ∧ digitChar d ≠ '.' ∧ digitChar d ≠ 'e' ∧ digitChar d ≠ 'E' := by
  interval_cases d <;> decide

theorem renderNatAux_zero (f : Nat) : renderNatAux f 0 = [] := by
  cases f <;> rfl

theorem digitsToNat_append_single (ds : List Nat) (d : Nat) :
    digitsToNat (ds ++ [d]) = digitsToNat ds * 10 + d := by
  simp [digitsToNat, List.foldl_append]

theorem renderNatAux_spec :
    ∀ f n, 0 < n → n ≤ f →
      ∃ ds, renderNatAux f n = ds.map digitChar ∧ (∀ d ∈ ds, d < 10) ∧
        digitsToNat ds = n ∧ ds ≠ [] ∧ ds.head? ≠ some 0 := by
  intro f
  induction f with
  | zero => intro n h1 h2; omega
  | succ f ih =>
    intro n h1 h2
    obtain ⟨n', rfl⟩ : ∃ n', n = n' + 1 := ⟨n - 1, by omega⟩
    have hstep : renderNatAux (f + 1) (n' + 1) =
        renderNatAux f ((n' + 1) / 10) ++ [digitChar ((n' + 1) % 10)] := rfl
    by_cases hsmall : n' + 1 < 10
    · have hdiv : (n' + 1) / 10 = 0 := Nat.div_eq_of_lt hsmall
      have hmod : (n' + 1) % 10 = n' + 1 := Nat.mod_eq_of_lt hsmall
      refine ⟨[n' + 1], ?_, by simpa using hsmall, by simp [digitsToNat], by simp, by simp⟩
      rw [hstep, hdiv, renderNatAux_zero, hmod]
      simp
    · have hd1 : 0 < (n' + 1) / 10 := Nat.div_pos (by omega) (by omega)
      have hd2 : (n' + 1) / 10 ≤ f := by
        have := Nat.div_lt_self (show 0 < n' + 1 by omega) (show 1 < 10 by omega)
        omega
      rcases ih ((n' + 1) / 10) hd1 hd2 with ⟨ds', hds', hlt', hval', hne', hhd'⟩
      refine ⟨ds' ++ [(n' + 1) % 10], ?_, ?_, ?_, by simp, ?_⟩
      · rw [hstep, hds', List.map_append]
        simp
      · intro d hd
        rcases List.mem_append.mp hd with h | h
        · exact hlt' d h
        · simp at h
          omega
      · rw [digitsToNat_append_single, hval']
        omega
      · obtain ⟨d0, ds'', rfl⟩ := List.exists_cons_of_ne_nil hne'
        simpa using hhd'

theorem renderNat_spec (n : Nat) :
    ∃ ds, renderNat n = ds.map digitChar ∧ (∀ d ∈ ds, d < 10) ∧
      digitsToNat ds = n ∧ ds ≠ [] ∧ (ds.head? = some 0 → ds = [0]) := by
  by_cases h : n = 0
  · subst h
    exact ⟨[0], rfl, by simp, rfl, by simp, fun _ => rfl⟩
  · rcases renderNatAux_spec n n (by omega) le_rfl with ⟨ds, h1, h2, h3, h4, h5⟩
    refine ⟨ds, ?_, h2, h3, h4, fun hh => absurd hh h5⟩
    rw [renderNat, if_neg h]
    exact h1

theorem takeDigits_map (ds : List Nat) (rest : List Char) (hd : ∀ d ∈ ds, d < 10)
    (hrest : ∀ c, rest.head? = some c → digitVal c = none) :
    takeDigits (ds.map digitChar ++ rest) = (ds, rest) := by
  induction ds with
  | nil =>
    cases rest with
    | nil => rfl
    | cons c r =>
      have := hrest c rfl
      simp [takeDigits, this]
  | cons d ds ih =>
    have hd10 : d < 10 := hd d (List.mem_cons_self _ _)
    have ihh := ih fun x hx => hd x (List.mem_cons.mpr (Or.inr hx))
    simp only [List.map_cons, List.cons_append, takeDigits, digitVal_digitChar hd10]
    rw [show (List.map digitChar ds).append rest = List.map digitChar ds ++ rest from rfl, ihh]

theorem parseFracPart_boundary (rest : List Char) (h : numBoundary rest = true) :
    parseFracPart rest = some ([], rest) := by
  cases rest with
  | nil => rfl
  | cons c r =>
    simp only [numBoundary, List.head?_cons, Bool.and_eq_true, decide_eq_true_eq] at h
    simp [parseFracPart, h.1.1.2]

theorem parseExpPart_boundary (rest : List Char) (h : numBoundary rest = true) :
    parseExpPart rest = some (0, rest) := by
  cases rest with
  | nil => rfl
  | cons c r =>
    simp only [numBoundary, List.head?_cons, Bool.and_eq_true, decide_eq_true_eq] at h
    simp [parseExpPart, h.1.2, h.2]

theorem numBoundary_head (rest : List Char) (h : numBoundary rest = true) :
    ∀ c, rest.head? = some c → digitVal c = none := by
  intro c hc
  cases rest with
  | nil => simp at hc
  | cons c' r =>
    simp only [List.head?_cons, Option.some.injEq] at hc
    subst hc
    simp only [numBoundary, List.head?_cons, Bool.and_eq_true] at h
    exact Option.isNone_iff_eq_none.mp h.1.1.1

theorem no_leading_zero (ds : List Nat) (hlz : ds.head? = some 0 → ds = [0]) :
    ¬(ds.head? = some 0 ∧ ds.length > 1) := by
  rintro ⟨h0, hlen⟩
  rw [hlz h0] at hlen
  simp at hlen


theorem parseNumTail_int (neg : Bool) (ds : List Nat) (rest : List Char)
    (h10 : ∀ d ∈ ds, d < 10) (hne : ds ≠ []) (hlz : ds.head? = some 0 → ds = [0])
    (hb : numBoundary rest = true) :
    parseNumTail neg (ds.map digitChar ++ rest) =
      some (pynum (if neg then -(digitsToNat ds : Int) else (digitsToNat ds : Int)) 0, rest) := by
  have htd := takeDigits_map ds rest h10 (numBoundary_head rest hb)
  simp only [parseNumTail]
  rw [htd, if_neg hne, if_neg (no_leading_zero _ hlz)]
  simp only [parseFracPart_boundary rest hb, parseExpPart_boundary rest hb,
    List.append_nil, List.length_nil, Int.natCast_zero]
  rw [if_pos le_rfl]
  simp

theorem parseNumTail_exp (neg : Bool) (ds : List Nat) (k : Nat) (rest : List Char)
    (h10 : ∀ d ∈ ds, d < 10) (hne : ds ≠ []) (hlz : ds.head? = some 0 → ds = [0])
    (hk : k ≠ 0) (hb : numBoundary rest = true) :
    parseNumTail neg (ds.map digitChar ++ 'e' :: '-' :: (renderNat k ++ rest)) =
      some (pynum (if neg then -(digitsToNat ds : Int) else (digitsToNat ds : Int)) k, rest) := by
  have hdig : ∀ c, ('e' :: '-' :: (renderNat k ++ rest)).head? = some c → digitVal c = none := by
    intro c hc
    simp only [List.head?_cons, Option.some.injEq] at hc
    subst hc
    rfl
  have htd := takeDigits_map ds ('e' :: '-' :: (renderNat k ++ rest)) h10 hdig
  rcases renderNat_spec k with ⟨ks, hks, hks10, hksval, hksne, _⟩
  have htd2 := takeDigits_map ks rest hks10 (numBoundary_head rest hb)
  have hfrac : parseFracPart ('e' :: '-' :: (renderNat k ++ rest)) =
      some ([], 'e' :: '-' :: (renderNat k ++ rest)) := by
    simp [parseFracPart]
  have hshape : parseExpPart ('e' :: '-' :: (List.map digitChar ks ++ rest)) =
      (if (takeDigits (List.map digitChar ks ++ rest)).1 = [] then none
       else some (-(digitsToNat (takeDigits (List.map digitChar ks ++ rest)).1 : Int),
                  (takeDigits (List.map digitChar ks ++ rest)).2)) := rfl
  have hexp : parseExpPart ('e' :: '-' :: (renderNat k ++ rest)) = some (-(k : Int), rest) := by
    rw [hks, hshape, htd2]
    simp [hksval, hksne]
  simp only [parseNumTail]
  rw [htd, if_neg hne, if_neg (no_leading_zero _ hlz)]
  simp only [hfrac, hexp, List.append_nil, List.length_nil, Int.natCast_zero]
  rw [if_neg (show ¬((0 : Int) ≤ -(k : Int)) by omega)]
  have htn : ((0 : Int) - -(k : Int)).toNat = k := by omega
  rw [htn]

theorem parseNumber_dash (t : List Char) : parseNumber ('-' :: t) = parseNumTail true t := rfl

theorem parseNumber_not_dash (s : List Char) (h : s.head? ≠ some '-') :
    parseNumber s = parseNumTail false s := by
  simp [parseNumber, h]

theorem parseNumber_ser (q : PyNum) (hq : q.canonical = true) (rest : List Char)
    (hb : numBoundary rest = true) :
    parseNumber (serializeNum q ++ rest) = some (q, rest) := by
  obtain ⟨m, e⟩ := q
  cases e with
  | zero =>
    have hser : serializeNum ⟨m, 0⟩ = renderInt m := rfl
    rw [hser]
    by_cases hm : m < 0
    · have hri : renderInt m = '-' :: renderNat m.natAbs := by
        simp [renderInt, hm]
      rcases renderNat_spec m.natAbs with ⟨ds, hds, h10, hval, hne, hlz⟩
      rw [hri, hds, List.cons_append, parseNumber_dash,
        parseNumTail_int true ds rest h10 hne hlz hb]
      have hcond : (if (true : Bool) = true
          then -(digitsToNat ds : Int) else (digitsToNat ds : Int)) = m := by
        rw [if_pos rfl]
        omega
      rw [hcond]
      rfl
    · have hri : renderInt m = renderNat m.toNat := by
        simp [renderInt, hm]
      rcases renderNat_spec m.toNat with ⟨ds, hds, h10, hval, hne, hlz⟩
      obtain ⟨d0, ds', rfl⟩ := List.exists_cons_of_ne_nil hne
      have hd0 : d0 < 10 := h10 d0 (List.mem_cons_self _ _)
      have hheadne : digitChar d0 ≠ '-' := (digitChar_facts hd0).2.2.2.2.2.2.2.2.1
      rw [hri, hds, parseNumber_not_dash _ (by simp [hheadne]),
        parseNumTail_int false (d0 :: ds') rest h10 (by simp) hlz hb]
      have hcond : (if (false : Bool) = true
          then -(digitsToNat (d0 :: ds') : Int) else (digitsToNat (d0 :: ds') : Int)) = m := by
        rw [if_neg (by simp)]
        omega
      rw [hcond]
      rfl
  | succ k =>
    have hcan : m % 10 ≠ 0 := by
      simp only [PyNum.canonical, Bool.or_eq_true, decide_eq_true_eq] at hq
      rcases hq with h | h
      · simp at h
      · exact h
    have hpy : pynum m (k + 1) = ⟨m, k + 1⟩ := by
      simp [pynum, stripZeros, hcan]
    have hser : serializeNum ⟨m, k + 1⟩ =
        renderInt m ++ 'e' :: '-' :: renderNat (k + 1) := by
      simp [serializeNum]
    rw [hser, show (renderInt m ++ 'e' :: '-' :: renderNat (k + 1)) ++ rest =
        renderInt m ++ 'e' :: '-' :: (renderNat (k + 1) ++ rest) by simp]
    by_cases hm : m < 0
    · have hri : renderInt m = '-' :: renderNat m.natAbs := by
        simp [renderInt, hm]
      rcases renderNat_spec m.natAbs with ⟨ds, hds, h10, hval, hne, hlz⟩
      rw [hri, hds, List.cons_append, parseNumber_dash,
        parseNumTail_exp true ds (k + 1) rest h10 hne hlz (by omega) hb]
      have hcond : (if (true : Bool) = true
          then -(digitsToNat ds : Int) else (digitsToNat ds : Int)) = m := by
        rw [if_pos rfl]
        omega
      rw [hcond, hpy]
    · have hri : renderInt m = renderNat m.toNat := by
        simp [renderInt, hm]
      rcases renderNat_spec m.toNat with ⟨ds, hds, h10, hval, hne, hlz⟩
      obtain ⟨d0, ds', rfl⟩ := List.exists_cons_of_ne_nil hne
      have hd0 : d0 < 10 := h10 d0 (List.mem_cons_self _ _)
      have hheadne : digitChar d0 ≠ '-' := (digitChar_facts hd0).2.2.2.2.2.2.2.2.1
      rw [hri, hds, parseNumber_not_dash _ (by simp [hheadne]),
        parseNumTail_exp false (d0 :: ds') (k + 1) rest h10 (by simp) hlz (by omega) hb]
      have hcond : (if (false : Bool) = true
          then -(digitsToNat (d0 :: ds') : Int) else (digitsToNat (d0 :: ds') : Int)) = m := by
        rw [if_neg (by simp)]
        omega
      rw [hcond, hpy]

/-! ## Round-trip machinery: strings, heads, whitespace -/

theorem parseStringBody_escaped (e d : Char) (t : List Char) (h : unescapeChar e = some d) :
    parseStringBody ('\\' :: e :: t) =
      match parseStringBody t with
      | none => none
      | some (s, r) => some (d :: s, r) := by
  simp only [parseStringBody, if_neg (by decide : ¬('\\' : Char) = '"'), if_pos rfl, h,
    if_true, eq_self_iff_true]

theorem parseStringBody_plain (c : Char) (t : List Char) (hq : c ≠ '"') (hb : c ≠ '\\')
    (hge : 32 ≤ c.toNat) :
    parseStringBody (c :: t) =
      match parseStringBody t with
      | none => none
      | some (s, r) => some (c :: s, r) := by
  rw [parseStringBody.eq_def]
  simp only [if_neg hq, if_neg hb, if_neg (by omega : ¬c.toNat < 32)]

theorem parseStringBody_escape (s : List Char) (h : strClean s = true) (rest : List Char) :
    parseStringBody (escapeString s ++ '"' :: rest) = some (s, rest) := by
  induction s with
  | nil =>
    show parseStringBody ('"' :: rest) = some ([], rest)
    rw [parseStringBody.eq_def]
    simp
  | cons c cs ih =>
    simp only [strClean, List.all_cons, Bool.and_eq_true, decide_eq_true_eq] at h
    obtain ⟨⟨⟨⟨⟨hge, _⟩, _⟩, _⟩, _⟩, hrest⟩ := h
    have ihh := ih hrest
    by_cases hq : c = '"'
    · subst hq
      have hexp : escapeString ('"' :: cs) ++ '"' :: rest =
          '\\' :: '"' :: (escapeString cs ++ '"' :: rest) := rfl
      rw [hexp, parseStringBody_escaped '"' '"' _ rfl, ihh]
    · by_cases hb : c = '\\'
      · subst hb
        have hexp : escapeString ('\\' :: cs) ++ '"' :: rest =
            '\\' :: '\\' :: (escapeString cs ++ '"' :: rest) := rfl
        rw [hexp, parseStringBody_escaped '\\' '\\' _ rfl, ihh]
      · have hexp : escapeString (c :: cs) ++ '"' :: rest =
            escapeChar c ++ (escapeString cs ++ '"' :: rest) := by
          show (escapeChar c ++ escapeString cs) ++ '"' :: rest = _
          rw [List.append_assoc]
        have hone : escapeChar c = [c] := by simp [escapeChar, hq, hb]
        rw [hexp, hone, List.singleton_append, parseStringBody_plain c _ hq hb hge, ihh]

theorem skipWs_not_ws (c : Char) (t : List Char) (h : isWsJ c = false) :
    skipWs (c :: t) = c :: t := by
  simp [skipWs, List.dropWhile_cons, h]

theorem renderInt_head (m : Int) :
    ∃ c t, renderInt m = c :: t ∧ (c = '-' ∨ ∃ d, d < 10 ∧ c = digitChar d) := by
  by_cases hm : m < 0
  · exact ⟨'-', renderNat m.natAbs, by simp [renderInt, hm], Or.inl rfl⟩
  · rcases renderNat_spec m.toNat with ⟨ds, hds, h10, _, hne, _⟩
    obtain ⟨d0, ds', rfl⟩ := List.exists_cons_of_ne_nil hne
    refine ⟨digitChar d0, List.map digitChar ds', ?_, Or.inr ⟨d0, h10 d0 (List.mem_cons_self _ _), rfl⟩⟩
    simp [renderInt, hm, hds]

theorem serializeNum_head (q : PyNum) :
    ∃ c t, serializeNum q = c :: t ∧ (c = '-' ∨ ∃ d, d < 10 ∧ c = digitChar d) := by
  rcases renderInt_head q.m with ⟨c, t, hct, hc⟩
  by_cases he : q.e = 0
  · exact ⟨c, t, by simp [serializeNum, he, hct], hc⟩
  · exact ⟨c, t ++ 'e' :: '-' :: renderNat q.e, by simp [serializeNum, he, hct], hc⟩

theorem numHead_facts (c : Char) (h : c = '-' ∨ ∃ d, d < 10 ∧ c = digitChar d) :
    isWsJ c = false ∧ startsNumber c = true ∧ c ≠ '"' ∧ c ≠ '{' ∧ c ≠ '[' ∧
      c ≠ 't' ∧ c ≠ 'f' ∧ c ≠ 'n' ∧ c ≠ ']' ∧ c ≠ '}' ∧ c ≠ ',' := by
  rcases h with rfl | ⟨d, hd, rfl⟩
  · decide
  · interval_cases d <;> decide

theorem serializeJson_head (j : Json) :
    ∃ c t, serializeJson j = c :: t ∧ isWsJ c = false ∧ c ≠ ']' ∧ c ≠ '}' ∧ c ≠ ',' := by
  cases j with
  | null => exact ⟨'n', _, rfl, by decide, by decide, by decide, by decide⟩
  | bool b =>
    cases b with
    | true => exact ⟨'t', _, rfl, by decide, by decide, by decide, by decide⟩
    | false => exact ⟨'f', _, rfl, by decide, by decide, by decide, by decide⟩
  | num q =>
    rcases serializeNum_head q with ⟨c, t, hct, hc⟩
    have hf := numHead_facts c hc
    exact ⟨c, t, by simp [serializeJson, hct], hf.1, hf.2.2.2.2.2.2.2.2.1,
      hf.2.2.2.2.2.2.2.2.2.1, hf.2.2.2.2.2.2.2.2.2.2⟩
  | str s => exact ⟨'"', _, rfl, by decide, by decide, by decide, by decide⟩
  | arr l => exact ⟨'[', _, rfl, by decide, by decide, by decide, by decide⟩
  | obj fs => exact ⟨'{', _, rfl, by decide, by decide, by decide, by decide⟩

theorem serializeJson_length_pos (j : Json) : 1 ≤ (serializeJson j).length := by
  rcases serializeJson_head j with ⟨c, t, h, _⟩
  rw [h]
  simp

theorem parseValue_unfold (n : Nat) (s : List Char) :
    parseValue (n + 1) s =
      (match skipWs s with
      | [] => none
      | c :: rest =>
        if c = '"' then
          match parseStringBody rest with
          | none => none
          | some (str, r) => some (.str str, r)
        else if c = '{' then
          if (skipWs rest).head? = some '}' then some (.obj [], (skipWs rest).tail)
          else
            match parseMembers n rest with
            | none => none
            | some (fs, r) => some (.obj (fs.foldl (fun m kv => insertKey m kv.1 kv.2) []), r)
        else if c = '[' then
          if (skipWs rest).head? = some ']' then some (.arr [], (skipWs rest).tail)
          else
            match parseItems n rest with
            | none => none
            | some (l, r) => some (.arr l, r)
        else if c = 't' then
          if pyStartsWith rest (lc "rue") then some (.bool true, rest.drop 3) else none
        else if c = 'f' then
          if pyStartsWith rest (lc "alse") then some (.bool false, rest.drop 4) else none
        else if c = 'n' then
          if pyStartsWith rest (lc "ull") then some (.null, rest.drop 3) else none
        else if startsNumber c then
          match parseNumber (c :: rest) with
          | none => none
          | some (q, r) => some (.num q, r)
        else none) := rfl

theorem parseMembers_unfold (n : Nat) (s : List Char) :
    parseMembers (n + 1) s =
      (match skipWs s with
      | [] => none
      | c :: rest =>
        if c = '"' then
          match parseStringBody rest with
          | none => none
          | some (k, r1) =>
            match skipWs r1 with
            | [] => none
            | c2 :: r2 =>
              if c2 = ':' then
                match parseValue n r2 with
                | none => none
                | some (v, r3) =>
                  match skipWs r3 with
                  | [] => none
                  | c3 :: r4 =>
                    if c3 = ',' then
                      match parseMembers n r4 with
                      | none => none
                      | some (fs, r5) => some ((k, v) :: fs, r5)
                    else if c3 = '}' then some ([(k, v)], r4)
                    else none
              else none
        else none) := rfl

theorem parseItems_unfold (n : Nat) (s : List Char) :
    parseItems (n + 1) s =
      (match parseValue n s with
      | none => none
      | some (v, r1) =>
        match skipWs r1 with
        | [] => none
        | c2 :: r2 =>
          if c2 = ',' then
            match parseItems n r2 with
            | none => none
            | some (l, r3) => some (v :: l, r3)
          else if c2 = ']' then some ([v], r2)
          else none) := rfl

theorem parseValue_null (n : Nat) (rest : List Char) :
    parseValue (n + 1) (serializeJson .null ++ rest) = some (.null, rest) := by
  rw [show serializeJson Json.null ++ rest = 'n' :: 'u' :: 'l' :: 'l' :: rest from rfl,
    parseValue_unfold, skipWs_not_ws _ _ (by decide)]
  simp [pyStartsWith, List.isPrefixOf, lc]

theorem parseValue_true (n : Nat) (rest : List Char) :
    parseValue (n + 1) (serializeJson (.bool true) ++ rest) = some (.bool true, rest) := by
  rw [show serializeJson (Json.bool true) ++ rest = 't' :: 'r' :: 'u' :: 'e' :: rest from rfl,
    parseValue_unfold, skipWs_not_ws _ _ (by decide)]
  simp [pyStartsWith, List.isPrefixOf, lc]

theorem parseValue_false (n : Nat) (rest : List Char) :
    parseValue (n + 1) (serializeJson (.bool false) ++ rest) = some (.bool false, rest) := by
  rw [show serializeJson (Json.bool false) ++ rest = 'f' :: 'a' :: 'l' :: 's' :: 'e' :: rest from rfl,
    parseValue_unfold, skipWs_not_ws _ _ (by decide)]
  simp [pyStartsWith, List.isPrefixOf, lc]

theorem parseValue_str (n : Nat) (s : List Char) (hs : strClean s = true) (rest : List Char) :
    parseValue (n + 1) (serializeJson (.str s) ++ rest) = some (.str s, rest) := by
  have hser : serializeJson (.str s) ++ rest = '"' :: (escapeString s ++ '"' :: rest) := by
    show ('"' :: (escapeString s ++ ['"'])) ++ rest = _
    simp
  rw [hser, parseValue_unfold, skipWs_not_ws _ _ (by decide)]
  simp [parseStringBody_escape s hs rest]

theorem parseValue_num (n : Nat) (q : PyNum) (hq : q.canonical = true) (rest : List Char)
    (hb : numBoundary rest = true) :
    parseValue (n + 1) (serializeJson (.num q) ++ rest) = some (.num q, rest) := by
  rcases serializeNum_head q with ⟨c, t, hct, hc⟩
  obtain ⟨hws, hsn, hq1, hq2, hq3, hq4, hq5, hq6, _, _, _⟩ := numHead_facts c hc
  have hser : serializeJson (.num q) ++ rest = c :: (t ++ rest) := by
    show serializeNum q ++ rest = _
    rw [hct, List.cons_append]
  rw [hser, parseValue_unfold, skipWs_not_ws _ _ hws]
  have hpn : parseNumber (c :: (t ++ rest)) = some (q, rest) := by
    rw [← List.cons_append, ← hct]
    exact parseNumber_ser q hq rest hb
  simp [if_neg hq1, if_neg hq2, if_neg hq3, if_neg hq4, if_neg hq5, if_neg hq6, hsn, hpn]

theorem hasKey_append (a b : List (List Char × Json)) (k : List Char) :
    hasKey (a ++ b) k = (hasKey a k || hasKey b k) := by
  induction a with
  | nil => simp [hasKey]
  | cons p rest ih =>
    obtain ⟨k', v'⟩ := p
    simp [hasKey, ih, Bool.or_assoc]

theorem ne_of_hasKey_false (fs : List (List Char × Json)) (k : List Char)
    (h : hasKey fs k = false) (p : List Char × Json) (hp : p ∈ fs) : p.1 ≠ k := by
  induction fs with
  | nil => simp at hp
  | cons q rest ih =>
    obtain ⟨k', v'⟩ := q
    simp only [hasKey, Bool.or_eq_false_iff, decide_eq_false_iff_not] at h
    rcases List.mem_cons.mp hp with rfl | hmem
    · exact h.1
    · exact ih h.2 hmem

theorem foldl_insertKey (fs : List (List Char × Json)) (acc : List (List Char × Json))
    (hdisj : ∀ p ∈ fs, hasKey acc p.1 = false) (hnod : cleanMembersB fs = true) :
    fs.foldl (fun m kv => insertKey m kv.1 kv.2) acc = acc ++ fs := by
  induction fs generalizing acc with
  | nil => simp
  | cons p rest ih =>
    obtain ⟨k, v⟩ := p
    simp only [cleanMembersB, Bool.and_eq_true, Bool.not_eq_true'] at hnod
    obtain ⟨⟨⟨_, hnk⟩, _⟩, hrest⟩ := hnod
    have hstep : insertKey acc k v = acc ++ [(k, v)] :=
      insertKey_of_not_hasKey acc k v (hdisj (k, v) (List.mem_cons_self _ _))
    have hdisj' : ∀ p ∈ rest, hasKey (acc ++ [(k, v)]) p.1 = false := by
      intro p hp
      rw [hasKey_append]
      have h1 : hasKey acc p.1 = false := hdisj p (List.mem_cons.mpr (Or.inr hp))
      have h2 : p.1 ≠ k := ne_of_hasKey_false rest k hnk p hp
      simp [hasKey, h1, Ne.symm h2]
    calc (((k, v) :: rest).foldl (fun m kv => insertKey m kv.1 kv.2) acc)
        = rest.foldl (fun m kv => insertKey m kv.1 kv.2) (acc ++ [(k, v)]) := by
          simp [hstep]
      _ = (acc ++ [(k, v)]) ++ rest := ih (acc ++ [(k, v)]) hdisj' hrest
      _ = acc ++ (k, v) :: rest := by simp

theorem dedupe_eq_self (fs : List (List Char × Json)) (hnod : cleanMembersB fs = true) :
    fs.foldl (fun m kv => insertKey m kv.1 kv.2) [] = fs := by
  have := foldl_insertKey fs [] (by intro p _; rfl) hnod
  simpa using this

theorem serMembers_cons_head (p : List Char × Json) (fs : List (List Char × Json)) :
    ∃ t, serMembers (p :: fs) = '"' :: t := by
  obtain ⟨k, v⟩ := p
  cases fs with
  | nil => exact ⟨_, rfl⟩
  | cons q fs' => exact ⟨_, rfl⟩

theorem serItems_cons (x : Json) (xs : List Json) (suffix : List Char) :
    serItems (x :: xs) ++ suffix =
      serializeJson x ++ (match xs with
        | [] => suffix
        | _ :: _ => ',' :: (serItems xs ++ suffix)) := by
  cases xs with
  | nil => rfl
  | cons y ys =>
    show (serializeJson x ++ ',' :: serItems (y :: ys)) ++ suffix = _
    simp

theorem serMembers_cons (k : List Char) (v : Json) (fs : List (List Char × Json))
    (suffix : List Char) :
    serMembers ((k, v) :: fs) ++ suffix =
      '"' :: (escapeString k ++ '"' :: ':' :: (serializeJson v ++ (match fs with
        | [] => suffix
        | _ :: _ => ',' :: (serMembers fs ++ suffix)))) := by
  cases fs with
  | nil =>
    show ('"' :: (escapeString k ++ '"' :: ':' :: serializeJson v)) ++ suffix = _
    simp
  | cons q fs' =>
    show ('"' :: (escapeString k ++ '"' :: ':' :: serializeJson v ++ ',' :: serMembers (q :: fs'))) ++ suffix = _
    simp

theorem fuel_le_ser (n : Nat) :
    (∀ j, sizeJson j ≤ n → fuelJson j ≤ (serializeJson j).length) ∧
    (∀ l, sizeItems l ≤ n → fuelItems l ≤ (serItems l).length + 1) ∧
    (∀ fs, sizeMembers fs ≤ n → fuelMembers fs ≤ (serMembers fs).length + 1) := by
  induction n using Nat.strong_induction_on with
  | _ n ih =>
    refine ⟨?_, ?_, ?_⟩
    · intro j hsz
      cases j with
      | null => simpa [fuelJson] using serializeJson_length_pos .null
      | bool b => simpa [fuelJson] using serializeJson_length_pos (.bool b)
      | num q => simpa [fuelJson] using serializeJson_length_pos (.num q)
      | str s => simpa [fuelJson] using serializeJson_length_pos (.str s)
      | arr l =>
        simp only [sizeJson] at hsz
        have hI := (ih (sizeItems l) (by omega)).2.1 l le_rfl
        have hlen : (serializeJson (Json.arr l)).length = (serItems l).length + 2 := by
          show ('[' :: (serItems l ++ [']'])).length = _
          simp
        simp only [fuelJson, hlen]
        omega
      | obj fs =>
        simp only [sizeJson] at hsz
        have hI := (ih (sizeMembers fs) (by omega)).2.2 fs le_rfl
        have hlen : (serializeJson (Json.obj fs)).length = (serMembers fs).length + 2 := by
          show ('{' :: (serMembers fs ++ ['}'])).length = _
          simp
        simp only [fuelJson, hlen]
        omega
    · intro l hsz
      cases l with
      | nil => simp [fuelItems, serItems]
      | cons x xs =>
        simp only [sizeItems] at hsz
        have hJ := (ih (sizeJson x) (by omega)).1 x le_rfl
        have hpos := serializeJson_length_pos x
        cases xs with
        | nil =>
          have hlen : serItems [x] = serializeJson x := rfl
          simp only [fuelItems, hlen]
          have h1 : fuelItems ([] : List Json) = 1 := rfl
          omega
        | cons y ys =>
          have hI := (ih (sizeItems (y :: ys)) (by simp only [sizeItems] at hsz ⊢; omega)).2.1
            (y :: ys) le_rfl
          have hlen : (serItems (x :: y :: ys)).length =
              (serializeJson x).length + 1 + (serItems (y :: ys)).length := by
            show (serializeJson x ++ ',' :: serItems (y :: ys)).length = _
            simp
            omega
          have hfu : fuelItems (x :: y :: ys) =
              1 + max (fuelJson x) (fuelItems (y :: ys)) := rfl
          rw [hfu, hlen]
          omega
    · intro fs hsz
      cases fs with
      | nil => simp [fuelMembers, serMembers]
      | cons p rest =>
        obtain ⟨k, v⟩ := p
        simp only [sizeMembers] at hsz
        have hJ := (ih (sizeJson v) (by omega)).1 v le_rfl
        have hpos := serializeJson_length_pos v
        cases rest with
        | nil =>
          have hlen : (serMembers [(k, v)]).length =
              (escapeString k).length + 3 + (serializeJson v).length := by
            show ('"' :: (escapeString k ++ '"' :: ':' :: serializeJson v)).length = _
            simp
            omega
          simp only [fuelMembers, hlen]
          have h1 : fuelMembers ([] : List (List Char × Json)) = 1 := rfl
          omega
        | cons q rest' =>
          have hI := (ih (sizeMembers (q :: rest'))
            (by simp only [sizeMembers] at hsz ⊢; omega)).2.2 (q :: rest') le_rfl
          have hlen : (serMembers ((k, v) :: q :: rest')).length =
              (escapeString k).length + 4 + (serializeJson v).length +
                (serMembers (q :: rest')).length := by
            show ('"' :: (escapeString k ++ '"' :: ':' :: serializeJson v ++
              ',' :: serMembers (q :: rest'))).length = _
            simp
            omega
          have hfu : fuelMembers ((k, v) :: q :: rest') =
              1 + max (fuelJson v) (fuelMembers (q :: rest')) := rfl
          rw [hfu, hlen]
          omega

theorem fuelJson_le_serLen (j : Json) : fuelJson j ≤ (serializeJson j).length + 1 := by
  have := (fuel_le_ser (sizeJson j)).1 j le_rfl
  omega

theorem numBoundary_comma (t : List Char) : numBoundary (',' :: t) = true := rfl

theorem numBoundary_rbrack (t : List Char) : numBoundary (']' :: t) = true := rfl

theorem numBoundary_rbrace (t : List Char) : numBoundary ('}' :: t) = true := rfl

theorem parse_ser (n : Nat) :
    (∀ j rest, cleanJson j = true → fuelJson j ≤ n → numBoundary rest = true →
      parseValue n (serializeJson j ++ rest) = some (j, rest)) ∧
    (∀ l rest, l ≠ [] → cleanItems l = true → fuelItems l ≤ n →
      parseItems n (serItems l ++ ']' :: rest) = some (l, rest)) ∧
    (∀ fs rest, fs ≠ [] → cleanMembersB fs = true → fuelMembers fs ≤ n →
      parseMembers n (serMembers fs ++ '}' :: rest) = some (fs, rest)) := by
  induction n with
  | zero =>
    refine ⟨?_, ?_, ?_⟩
    · intro j rest _ hf _
      exfalso
      cases j <;> simp only [fuelJson] at hf <;> omega
    · intro l rest hne _ hf
      exfalso
      cases l with
      | nil => exact hne rfl
      | cons x xs => simp only [fuelItems] at hf; omega
    · intro fs rest hne _ hf
      exfalso
      cases fs with
      | nil => exact hne rfl
      | cons p ps =>
        obtain ⟨k, v⟩ := p
        simp only [fuelMembers] at hf
        omega
  | succ n ih =>
    obtain ⟨ihA, ihB, ihC⟩ := ih
    refine ⟨?_, ?_, ?_⟩
    · intro j rest hc hf hb
      cases j with
      | null => exact parseValue_null n rest
      | bool b =>
        cases b with
        | true => exact parseValue_true n rest
        | false => exact parseValue_false n rest
      | num q => exact parseValue_num n q (by simpa [cleanJson] using hc) rest hb
      | str s => exact parseValue_str n s (by simpa [cleanJson] using hc) rest
      | arr l =>
        cases l with
        | nil =>
          have h1 : skipWs (']' :: rest) = ']' :: rest := skipWs_not_ws _ _ (by decide)
          rw [show serializeJson (Json.arr []) ++ rest = '[' :: ']' :: rest from rfl,
            parseValue_unfold, skipWs_not_ws _ _ (by decide)]
          simp [h1]
        | cons x xs =>
          simp only [fuelJson] at hf
          have hcl : cleanItems (x :: xs) = true := by simpa [cleanJson] using hc
          have hB := ihB (x :: xs) rest (by simp) hcl (by omega)
          have hser : serializeJson (Json.arr (x :: xs)) ++ rest =
              '[' :: (serItems (x :: xs) ++ ']' :: rest) := by
            show ('[' :: (serItems (x :: xs) ++ [']'])) ++ rest = _
            simp
          obtain ⟨c0, t0, hc0, hws0, hc0r, _, _⟩ := serializeJson_head x
          have hh : serItems (x :: xs) ++ ']' :: rest =
              c0 :: (t0 ++ (match xs with
                | [] => ']' :: rest
                | _ :: _ => ',' :: (serItems xs ++ ']' :: rest))) := by
            rw [serItems_cons, hc0]
            cases xs <;> simp
          have hsw : skipWs (serItems (x :: xs) ++ ']' :: rest) =
              serItems (x :: xs) ++ ']' :: rest := by
            rw [hh]
            exact skipWs_not_ws _ _ hws0
          have hguard : ¬ ((skipWs (serItems (x :: xs) ++ ']' :: rest)).head? = some ']') := by
            rw [hsw, hh]
            simp [hc0r]
          rw [hser, parseValue_unfold, skipWs_not_ws _ _ (by decide)]
          simp [hguard, hB]
      | obj fs =>
        cases fs with
        | nil =>
          have h1 : skipWs ('}' :: rest) = '}' :: rest := skipWs_not_ws _ _ (by decide)
          rw [show serializeJson (Json.obj []) ++ rest = '{' :: '}' :: rest from rfl,
            parseValue_unfold, skipWs_not_ws _ _ (by decide)]
          simp [h1]
        | cons p fs' =>
          simp only [fuelJson] at hf
          have hcl : cleanMembersB (p :: fs') = true := by simpa [cleanJson] using hc
          have hM := ihC (p :: fs') rest (by simp) hcl (by omega)
          have hser : serializeJson (Json.obj (p :: fs')) ++ rest =
              '{' :: (serMembers (p :: fs') ++ '}' :: rest) := by
            show ('{' :: (serMembers (p :: fs') ++ ['}'])) ++ rest = _
            simp
          obtain ⟨t0, ht0⟩ := serMembers_cons_head p fs'
          have hh : serMembers (p :: fs') ++ '}' :: rest = '"' :: (t0 ++ '}' :: rest) := by
            rw [ht0]
            simp
          have hsw : skipWs (serMembers (p :: fs') ++ '}' :: rest) =
              serMembers (p :: fs') ++ '}' :: rest := by
            rw [hh]
            exact skipWs_not_ws _ _ (by decide)
          have hguard : ¬ ((skipWs (serMembers (p :: fs') ++ '}' :: rest)).head? =
              some '}') := by
            rw [hsw, hh]
            simp
          rw [hser, parseValue_unfold, skipWs_not_ws _ _ (by decide)]
          simp [hguard, hM, dedupe_eq_self (p :: fs') hcl]
    · intro l rest hne hcl hf
      cases l with
      | nil => exact absurd rfl hne
      | cons x xs =>
        simp only [cleanItems, Bool.and_eq_true] at hcl
        obtain ⟨hcx, hcxs⟩ := hcl
        simp only [fuelItems] at hf
        cases xs with
        | nil =>
          have hA := ihA x (']' :: rest) hcx (by omega) (numBoundary_rbrack rest)
          have hsi : serItems [x] ++ ']' :: rest = serializeJson x ++ ']' :: rest := rfl
          rw [parseItems_unfold, hsi, hA]
          simp [skipWs_not_ws ']' rest (by decide)]
        | cons y ys =>
          have hB := ihB (y :: ys) rest (by simp) hcxs (by omega)
          have hA := ihA x (',' :: (serItems (y :: ys) ++ ']' :: rest)) hcx (by omega)
            (numBoundary_comma _)
          have hsi : serItems (x :: y :: ys) ++ ']' :: rest =
              serializeJson x ++ ',' :: (serItems (y :: ys) ++ ']' :: rest) :=
            serItems_cons x (y :: ys) (']' :: rest)
          rw [parseItems_unfold, hsi, hA]
          simp [skipWs_not_ws ',' (serItems (y :: ys) ++ ']' :: rest) (by decide), hB]
    · intro fs rest hne hcl hf
      cases fs with
      | nil => exact absurd rfl hne
      | cons p fs' =>
        obtain ⟨k, v⟩ := p
        simp only [cleanMembersB, Bool.and_eq_true, Bool.not_eq_true'] at hcl
        obtain ⟨⟨⟨hsk, _⟩, hcv⟩, hcfs'⟩ := hcl
        simp only [fuelMembers] at hf
        cases fs' with
        | nil =>
          have hser : serMembers [(k, v)] ++ '}' :: rest =
              '"' :: (escapeString k ++ '"' :: ':' :: (serializeJson v ++ '}' :: rest)) :=
            serMembers_cons k v [] ('}' :: rest)
          have hA := ihA v ('}' :: rest) hcv (by omega) (numBoundary_rbrace rest)
          have hstr := parseStringBody_escape k hsk (':' :: (serializeJson v ++ '}' :: rest))
          rw [parseMembers_unfold, hser, skipWs_not_ws '"' _ (by decide)]
          simp [hstr, skipWs_not_ws ':' (serializeJson v ++ '}' :: rest) (by decide), hA,
            skipWs_not_ws '}' rest (by decide)]
        | cons q fs'' =>
          have hser : serMembers ((k, v) :: q :: fs'') ++ '}' :: rest =
              '"' :: (escapeString k ++ '"' :: ':' ::
                (serializeJson v ++ ',' :: (serMembers (q :: fs'') ++ '}' :: rest))) :=
            serMembers_cons k v (q :: fs'') ('}' :: rest)
          have hC := ihC (q :: fs'') rest (by simp) hcfs' (by omega)
          have hA := ihA v (',' :: (serMembers (q :: fs'') ++ '}' :: rest)) hcv (by omega)
            (numBoundary_comma _)
          have hstr := parseStringBody_escape k hsk
            (':' :: (serializeJson v ++ ',' :: (serMembers (q :: fs'') ++ '}' :: rest)))
          rw [parseMembers_unfold, hser, skipWs_not_ws '"' _ (by decide)]
          simp [hstr,
            skipWs_not_ws ':'
              (serializeJson v ++ ',' :: (serMembers (q :: fs'') ++ '}' :: rest)) (by decide),
            hA,
            skipWs_not_ws ',' (serMembers (q :: fs'') ++ '}' :: rest) (by decide),
            hC]

theorem json_loads_ser (j : Json) (h : cleanJson j = true) :
    json_loads (serializeJson j) = some j := by
  have hA := (parse_ser ((serializeJson j).length + 1)).1 j [] h
    (by have := fuelJson_le_serLen j; omega) rfl
  rw [List.append_nil] at hA
  unfold json_loads
  rw [hA]
  rfl

theorem scanFrom_bound (oC cC : Char) (s : List Char) :
    ∀ d acc out, scanFrom oC cC s d acc = some out → out.length ≤ acc.length + s.length := by
  induction s with
  | nil =>
    intro d acc out h
    simp [scanFrom] at h
  | cons c rest ih =>
    intro d acc out h
    simp only [scanFrom] at h
    by_cases h1 : c = oC
    · rw [if_pos h1] at h
      have := ih (d + 1) (acc ++ [c]) out h
      simp at this ⊢
      omega
    · rw [if_neg h1] at h
      by_cases h2 : c = cC
      · rw [if_pos h2] at h
        by_cases h3 : d = 1
        · rw [if_pos h3] at h
          have : acc ++ [c] = out := Option.some.inj h
          rw [← this]
          simp
        · rw [if_neg h3] at h
          have := ih (d - 1) (acc ++ [c]) out h
          simp at this ⊢
          omega
      · rw [if_neg h2] at h
        have := ih d (acc ++ [c]) out h
        simp at this ⊢
        omega

theorem braceSafe_nil : braceSafe [] := by
  intro d acc rest _
  simp

theorem braceSafe_of_all (x : List Char) (h : ∀ c ∈ x, c ≠ '{' ∧ c ≠ '}') :
    braceSafe x := by
  induction x with
  | nil => exact braceSafe_nil
  | cons c t ih =>
    intro d acc rest hd
    have hc := h c (List.mem_cons_self _ _)
    show scanFrom '{' '}' ((c :: t) ++ rest) d acc = _
    rw [List.cons_append]
    simp only [scanFrom, if_neg hc.1, if_neg hc.2]
    rw [ih (fun c' hc' => h c' (List.mem_cons.mpr (Or.inr hc'))) d (acc ++ [c]) rest hd]
    congr 1
    simp

theorem braceSafe_append (x y : List Char) (hx : braceSafe x) (hy : braceSafe y) :
    braceSafe (x ++ y) := by
  intro d acc rest hd
  rw [List.append_assoc, hx d acc (y ++ rest) hd, hy d (acc ++ x) rest hd,
    List.append_assoc]

theorem braceSafe_wrap (x : List Char) (hx : braceSafe x) :
    braceSafe ('{' :: x ++ ['}']) := by
  intro d acc rest hd
  have h1 : ('{' :: x ++ ['}']) ++ rest = '{' :: (x ++ ('}' :: rest)) := by simp
  have step1 : scanFrom '{' '}' ('{' :: (x ++ ('}' :: rest))) d acc =
      scanFrom '{' '}' (x ++ ('}' :: rest)) (d + 1) (acc ++ ['{']) := by
    simp [scanFrom]
  have step2 := hx (d + 1) (acc ++ ['{']) ('}' :: rest) (by omega)
  have hne : ¬ (d + 1 = 1) := by omega
  have step3 : scanFrom '{' '}' ('}' :: rest) (d + 1) (acc ++ ['{'] ++ x) =
      scanFrom '{' '}' rest d (acc ++ ['{'] ++ x ++ ['}']) := by
    simp [scanFrom, hne]
  rw [h1, step1, step2, step3]
  congr 1
  simp

theorem foldl_max_stay (x : List Char) (xs : List (List Char))
    (h : ∀ y ∈ xs, y.length ≤ x.length) :
    xs.foldl (fun best y => if y.length > best.length then y else best) x = x := by
  induction xs with
  | nil => rfl
  | cons y ys ih =>
    have hy : ¬ (y.length > x.length) := not_lt.mpr (h y (List.mem_cons_self _ _))
    show ys.foldl _ (if y.length > x.length then y else x) = x
    rw [if_neg hy]
    exact ih fun z hz => h z (List.mem_cons.mpr (Or.inr hz))

theorem renderNatAux_mem (f : Nat) :
    ∀ n c, c ∈ renderNatAux f n → ∃ d, d < 10 ∧ c = digitChar d := by
  induction f with
  | zero =>
    intro n c h
    simp [renderNatAux] at h
  | succ f ih =>
    intro n c h
    cases n with
    | zero => simp [renderNatAux] at h
    | succ m =>
      rw [show renderNatAux (f + 1) (m + 1) =
        renderNatAux f ((m + 1) / 10) ++ [digitChar ((m + 1) % 10)] from rfl] at h
      rcases List.mem_append.mp h with h1 | h1
      · exact ih _ c h1
      · rcases List.mem_singleton.mp h1 with rfl
        exact ⟨(m + 1) % 10, Nat.mod_lt _ (by decide), rfl⟩

theorem digitChar_not_brace {d : Nat} (h : d < 10) :
    digitChar d ≠ '{' ∧ digitChar d ≠ '}' := by
  interval_cases d <;> exact ⟨by decide, by decide⟩

theorem renderNat_safe (n : Nat) : ∀ c ∈ renderNat n, c ≠ '{' ∧ c ≠ '}' := by
  intro c h
  unfold renderNat at h
  by_cases h0 : n = 0
  · rw [if_pos h0] at h
    rcases List.mem_singleton.mp h with rfl
    exact ⟨by decide, by decide⟩
  · rw [if_neg h0] at h
    obtain ⟨d, hd, rfl⟩ := renderNatAux_mem n n c h
    exact digitChar_not_brace hd

theorem renderInt_safe (m : Int) : ∀ c ∈ renderInt m, c ≠ '{' ∧ c ≠ '}' := by
  intro c h
  unfold renderInt at h
  by_cases hm : m < 0
  · rw [if_pos hm] at h
    rcases List.mem_cons.mp h with rfl | h1
    · exact ⟨by decide, by decide⟩
    · exact renderNat_safe _ c h1
  · rw [if_neg hm] at h
    exact renderNat_safe _ c h

theorem serializeNum_safe (q : PyNum) : ∀ c ∈ serializeNum q, c ≠ '{' ∧ c ≠ '}' := by
  intro c h
  unfold serializeNum at h
  by_cases he : q.e = 0
  · rw [if_pos he] at h
    exact renderInt_safe _ c h
  · rw [if_neg he] at h
    rcases List.mem_append.mp h with h1 | h1
    · exact renderInt_safe _ c h1
    · rcases List.mem_cons.mp h1 with rfl | h2
      · exact ⟨by decide, by decide⟩
      · rcases List.mem_cons.mp h2 with rfl | h3
        · exact ⟨by decide, by decide⟩
        · exact renderNat_safe _ c h3

theorem escapeString_safe (s : List Char) (hs : strClean s = true) :
    ∀ c ∈ escapeString s, c ≠ '{' ∧ c ≠ '}' := by
  intro c h
  simp only [escapeString, List.mem_flatMap] at h
  obtain ⟨a, ha, hc⟩ := h
  unfold strClean at hs
  rw [List.all_eq_true] at hs
  have hp := hs a ha
  simp only [Bool.and_eq_true, decide_eq_true_eq] at hp
  obtain ⟨⟨⟨⟨_, h1⟩, h2⟩, _⟩, _⟩ := hp
  have hmem : c = '\\' ∨ c = '"' ∨ c = a := by
    unfold escapeChar at hc
    by_cases e1 : a = '"'
    · rw [if_pos e1] at hc
      simp at hc
      tauto
    · rw [if_neg e1] at hc
      by_cases e2 : a = '\\'
      · rw [if_pos e2] at hc
        simp at hc
        tauto
      · rw [if_neg e2] at hc
        simp at hc
        tauto
  rcases hmem with rfl | rfl | rfl
  · exact ⟨by decide, by decide⟩
  · exact ⟨by decide, by decide⟩
  · exact ⟨h1, h2⟩

theorem ser_safe (n : Nat) :
    (∀ j, sizeJson j ≤ n → cleanJson j = true → braceSafe (serializeJson j)) ∧
    (∀ l, sizeItems l ≤ n → cleanItems l = true → braceSafe (serItems l)) ∧
    (∀ fs, sizeMembers fs ≤ n → cleanMembersB fs = true → braceSafe (serMembers fs)) := by
  induction n using Nat.strong_induction_on with
  | _ n ih =>
    refine ⟨?_, ?_, ?_⟩
    · intro j hsz hc
      cases j with
      | null => exact braceSafe_of_all _ (by decide)
      | bool b =>
        cases b with
        | true => exact braceSafe_of_all _ (by decide)
        | false => exact braceSafe_of_all _ (by decide)
      | num q => exact braceSafe_of_all _ (serializeNum_safe q)
      | str s =>
        have hs : strClean s = true := by simpa [cleanJson] using hc
        have h1 : serializeJson (Json.str s) = ['"'] ++ escapeString s ++ ['"'] := by
          show '"' :: (escapeString s ++ ['"']) = _
          simp
        rw [h1]
        exact braceSafe_append _ _ (braceSafe_append _ _ (braceSafe_of_all _ (by decide))
          (braceSafe_of_all _ (escapeString_safe s hs))) (braceSafe_of_all _ (by decide))
      | arr l =>
        simp only [sizeJson] at hsz
        have hcl : cleanItems l = true := by simpa [cleanJson] using hc
        have hI := (ih (sizeItems l) (by omega)).2.1 l le_rfl hcl
        have h1 : serializeJson (Json.arr l) = ['['] ++ serItems l ++ [']'] := by
          show '[' :: (serItems l ++ [']']) = _
          simp
        rw [h1]
        exact braceSafe_append _ _ (braceSafe_append _ _ (braceSafe_of_all _ (by decide)) hI)
          (braceSafe_of_all _ (by decide))
      | obj fs =>
        simp only [sizeJson] at hsz
        have hcm : cleanMembersB fs = true := by simpa [cleanJson] using hc
        have hM := (ih (sizeMembers fs) (by omega)).2.2 fs le_rfl hcm
        exact braceSafe_wrap _ hM
    · intro l hsz hc
      cases l with
      | nil => exact braceSafe_nil
      | cons x xs =>
        simp only [sizeItems] at hsz
        simp only [cleanItems, Bool.and_eq_true] at hc
        have hx := (ih (sizeJson x) (by omega)).1 x le_rfl hc.1
        cases xs with
        | nil => exact hx
        | cons y ys =>
          have hxs := (ih (sizeItems (y :: ys))
            (by simp only [sizeItems] at hsz ⊢; omega)).2.1 (y :: ys) le_rfl hc.2
          have h1 : serItems (x :: y :: ys) =
              serializeJson x ++ [','] ++ serItems (y :: ys) := by
            show serializeJson x ++ ',' :: serItems (y :: ys) = _
            simp
          rw [h1]
          exact braceSafe_append _ _
            (braceSafe_append _ _ hx (braceSafe_of_all _ (by decide))) hxs
    · intro fs hsz hc
      cases fs with
      | nil => exact braceSafe_nil
      | cons p rest =>
        obtain ⟨k, v⟩ := p
        simp only [sizeMembers] at hsz
        simp only [cleanMembersB, Bool.and_eq_true, Bool.not_eq_true'] at hc
        obtain ⟨⟨⟨hsk, _⟩, hcv⟩, hcr⟩ := hc
        have hv := (ih (sizeJson v) (by omega)).1 v le_rfl hcv
        have hkSafe := braceSafe_of_all _ (escapeString_safe k hsk)
        cases rest with
        | nil =>
          have h1 : serMembers [(k, v)] =
              ['"'] ++ escapeString k ++ ['"', ':'] ++ serializeJson v := by
            show '"' :: (escapeString k ++ '"' :: ':' :: serializeJson v) = _
            simp
          rw [h1]
          exact braceSafe_append _ _ (braceSafe_append _ _ (braceSafe_append _ _
            (braceSafe_of_all _ (by decide)) hkSafe) (braceSafe_of_all _ (by decide))) hv
        | cons q rest' =>
          have hr := (ih (sizeMembers (q :: rest'))
            (by simp only [sizeMembers] at hsz ⊢; omega)).2.2 (q :: rest') le_rfl hcr
          have h1 : serMembers ((k, v) :: q :: rest') =
              ['"'] ++ escapeString k ++ ['"', ':'] ++ serializeJson v ++ [','] ++
                serMembers (q :: rest') := by
            show '"' :: (escapeString k ++ '"' :: ':' ::
              serializeJson v ++ ',' :: serMembers (q :: rest')) = _
            simp
          rw [h1]
          exact braceSafe_append _ _ (braceSafe_append _ _ (braceSafe_append _ _
            (braceSafe_append _ _ (braceSafe_append _ _ (braceSafe_of_all _ (by decide))
              hkSafe) (braceSafe_of_all _ (by decide))) hv)
            (braceSafe_of_all _ (by decide))) hr

theorem bracketCandidates_le (oC cC : Char) (raw : List Char) :
    ∀ c ∈ bracketCandidates oC cC raw, c.length ≤ raw.length := by
  intro c hc
  simp only [bracketCandidates, List.mem_filterMap, List.mem_range] at hc
  obtain ⟨i, _, hf⟩ := hc
  by_cases hg : raw.get? i = some oC
  · rw [if_pos hg] at hf
    have h1 := scanFrom_bound oC cC (raw.drop i) 0 [] c hf
    have h2 : (raw.drop i).length ≤ raw.length := by simp
    simp at h1
    omega
  · rw [if_neg hg] at hf
    exact absurd hf (by simp)

theorem candidates_le (raw : List Char) : ∀ c ∈ candidates raw, c.length ≤ raw.length := by
  intro c hc
  simp only [candidates] at hc
  rcases List.mem_append.mp hc with h | h
  · exact bracketCandidates_le _ _ raw c h
  · exact bracketCandidates_le _ _ raw c h

theorem scanFrom_obj (fs : List (List Char × Json)) (hsafe : braceSafe (serMembers fs)) :
    scanFrom '{' '}' (serializeJson (.obj fs)) 0 [] = some (serializeJson (.obj fs)) := by
  show scanFrom '{' '}' ('{' :: (serMembers fs ++ ['}'])) 0 [] = _
  have step1 : scanFrom '{' '}' ('{' :: (serMembers fs ++ ['}'])) 0 [] =
      scanFrom '{' '}' (serMembers fs ++ ['}']) 1 ['{'] := by
    simp [scanFrom]
  have step2 := hsafe 1 ['{'] ['}'] (by omega)
  have step3 : scanFrom '{' '}' ['}'] 1 (['{'] ++ serMembers fs) =
      some ((['{'] ++ serMembers fs) ++ ['}']) := by
    simp [scanFrom]
  rw [step1, step2, step3]
  simp [serializeJson]

theorem extract_ser_obj (fs : List (List Char × Json)) (hsafe : braceSafe (serMembers fs)) :
    extract_candidate (serializeJson (.obj fs)) = some (serializeJson (.obj fs)) := by
  have hscan := scanFrom_obj fs hsafe
  have hg : (serializeJson (Json.obj fs))[0]? = some '{' := by
    show ('{' :: (serMembers fs ++ ['}']))[0]? = some '{'
    simp
  have hlen : (serializeJson (Json.obj fs)).length = (serMembers fs ++ ['}']).length + 1 := by
    show ('{' :: (serMembers fs ++ ['}'])).length = _
    simp
  have hhead : ∃ tl, bracketCandidates '{' '}' (serializeJson (.obj fs)) =
      serializeJson (.obj fs) :: tl := by
    refine ⟨List.filterMap
      (fun i => if (serializeJson (Json.obj fs)).get? i = some '{'
        then scanFrom '{' '}' ((serializeJson (Json.obj fs)).drop i) 0 [] else none)
      ((List.range (serMembers fs ++ ['}']).length).map Nat.succ), ?_⟩
    unfold bracketCandidates
    rw [hlen, List.range_succ_eq_map, List.filterMap_cons]
    simp [hg, hscan]
  obtain ⟨tl, htl⟩ := hhead
  have hcands : candidates (serializeJson (.obj fs)) =
      serializeJson (.obj fs) :: (tl ++ bracketCandidates '[' ']' (serializeJson (.obj fs))) := by
    unfold candidates
    rw [htl]
    rfl
  have hle := candidates_le (serializeJson (.obj fs))
  have hbound : ∀ y ∈ tl ++ bracketCandidates '[' ']' (serializeJson (.obj fs)),
      y.length ≤ (serializeJson (Json.obj fs)).length := by
    intro y hy
    exact hle y (by rw [hcands]; exact List.mem_cons.mpr (Or.inr hy))
  unfold extract_candidate
  rw [hcands]
  simp only [pyMaxByLen]
  rw [foldl_max_stay _ _ hbound]

theorem pyStrip_sandwich (a b : Char) (x : List Char) (ha : isPyWs a = false)
    (hb : isPyWs b = false) : pyStrip (a :: (x ++ [b])) = a :: (x ++ [b]) := by
  simp [pyStrip, List.dropWhile_cons, ha, hb]

theorem preprocess_ser_obj (fs : List (List Char × Json)) :
    preprocess (serializeJson (.obj fs)) = serializeJson (.obj fs) := by
  have hstrip : pyStrip (serializeJson (Json.obj fs)) = serializeJson (Json.obj fs) := by
    show pyStrip ('{' :: (serMembers fs ++ ['}'])) = _
    exact pyStrip_sandwich '{' '}' (serMembers fs) (by decide) (by decide)
  have hs : pyStartsWith (serializeJson (Json.obj fs)) (lc "```") = false := by
    show pyStartsWith ('{' :: (serMembers fs ++ ['}'])) (lc "```") = false
    rfl
  simp only [preprocess, hstrip, hs]
  simp

theorem try_load_ser (j : Json) (h : cleanJson j = true) :
    try_load (serializeJson j) = some j := by
  unfold try_load
  rw [json_loads_ser j h]

theorem rescueList_cond (pcs : List Condition) :
    rescueList (pcs.map condToJson) = .ok (pcs.map condToJson, false) := by
  induction pcs with
  | nil => rfl
  | cons c cs ih =>
    have step : rescueList (List.map condToJson (c :: cs)) =
        match rescueList (List.map condToJson cs) with
        | .error e => .error e
        | .ok (l, r2) => .ok (condToJson c :: l, r2) := rfl
    rw [step, ih]
    rfl

theorem rescueParsed_no_rescue (fs : List (List Char × Json)) (pcs : List Json)
    (hlook : lookupKey fs (lc "probable_conditions") = some (.arr pcs))
    (hres : rescueList pcs = .ok (pcs, false))
    (hins : insertKey fs (lc "probable_conditions") (.arr pcs) = fs) :
    rescueParsed (.obj fs) = .ok (.obj fs) := by
  simp only [rescueParsed, hlook, hres, hins]
  simp

theorem rescueParsed_resp (r : SymptomResponse) :
    rescueParsed (respToJson r) = .ok (respToJson r) := by
  exact rescueParsed_no_rescue
    [ (lc "input", .str r.input),
      (lc "probable_conditions", .arr (r.probable_conditions.map condToJson)),
      (lc "recommended_next_steps", .arr (r.recommended_next_steps.map .str)),
      (lc "disclaimer", .str r.disclaimer) ]
    (r.probable_conditions.map condToJson) rfl (rescueList_cond r.probable_conditions) rfl

theorem validateCondition_cond (c : Condition) : validateCondition (condToJson c) = .ok c := by
  obtain ⟨cond, ra, cf, rs⟩ := c
  cases rs with
  | none => rfl
  | some q => rfl

theorem validateConditions_map (pcs : List Condition) :
    validateConditions (pcs.map condToJson) = .ok pcs := by
  induction pcs with
  | nil => rfl
  | cons c cs ih =>
    simp only [List.map_cons, validateConditions, validateCondition_cond c, ih]

theorem validateStrList_map (steps : List (List Char)) :
    validateStrList (steps.map .str) = .ok steps := by
  induction steps with
  | nil => rfl
  | cons s ss ih => simp only [List.map_cons, validateStrList, ih]

theorem validateResponse_resp (r : SymptomResponse) :
    validateResponse (respToJson r) = .ok r := by
  have step : validateResponse (respToJson r) =
      (match validateConditions (r.probable_conditions.map condToJson) with
      | .error e => .error e
      | .ok cs =>
        match validateStrList (r.recommended_next_steps.map .str) with
        | .error e => .error e
        | .ok sts => .ok ⟨r.input, cs, sts, r.disclaimer⟩) := rfl
  rw [step, validateConditions_map, validateStrList_map]

theorem cleanJson_cond (c : Condition) (h : condClean c = true) :
    cleanJson (condToJson c) = true := by
  obtain ⟨cond, ra, cf, rs⟩ := c
  cases rs with
  | none =>
    simp only [condClean, Bool.and_eq_true] at h
    obtain ⟨⟨⟨h1, h2⟩, h3⟩, _⟩ := h
    show cleanMembersB [(lc "condition", .str cond), (lc "rationale", .str ra),
      (lc "confidence", .str cf), (lc "relative_score", .null)] = true
    simp +decide [cleanMembersB, cleanJson, hasKey, h1, h2, h3]
  | some q =>
    simp only [condClean, Bool.and_eq_true] at h
    obtain ⟨⟨⟨h1, h2⟩, h3⟩, h4⟩ := h
    show cleanMembersB [(lc "condition", .str cond), (lc "rationale", .str ra),
      (lc "confidence", .str cf), (lc "relative_score", .num q)] = true
    simp +decide [cleanMembersB, cleanJson, hasKey, h1, h2, h3, h4]

theorem cleanItems_map_cond (pcs : List Condition) (h : pcs.all condClean = true) :
    cleanItems (pcs.map condToJson) = true := by
  induction pcs with
  | nil => rfl
  | cons c cs ih =>
    simp only [List.all_cons, Bool.and_eq_true] at h
    simp only [List.map_cons, cleanItems, Bool.and_eq_true]
    exact ⟨cleanJson_cond c h.1, ih h.2⟩

theorem cleanItems_map_str (steps : List (List Char)) (h : steps.all strClean = true) :
    cleanItems (steps.map .str) = true := by
  induction steps with
  | nil => rfl
  | cons s ss ih =>
    simp only [List.all_cons, Bool.and_eq_true] at h
    simp only [List.map_cons, cleanItems, Bool.and_eq_true]
    exact ⟨h.1, ih h.2⟩

theorem cleanJson_resp (r : SymptomResponse) (h : respClean r = true) :
    cleanJson (respToJson r) = true := by
  simp only [respClean, Bool.and_eq_true] at h
  obtain ⟨⟨⟨h1, h2⟩, h3⟩, h4⟩ := h
  show cleanMembersB
    [ (lc "input", .str r.input),
      (lc "probable_conditions", .arr (r.probable_conditions.map condToJson)),
      (lc "recommended_next_steps", .arr (r.recommended_next_steps.map .str)),
      (lc "disclaimer", .str r.disclaimer) ] = true
  simp +decide [cleanMembersB, cleanJson, hasKey, h1, h4, cleanItems_map_cond _ h2,
    cleanItems_map_str _ h3]

theorem parse_and_validate_ser (r : SymptomResponse) (hclean : cleanJson (respToJson r) = true) :
    parse_and_validate_json (serializeResponse r) = .ok r := by
  have hsafe : braceSafe (serMembers
      [ (lc "input", .str r.input),
        (lc "probable_conditions", .arr (r.probable_conditions.map condToJson)),
        (lc "recommended_next_steps", .arr (r.recommended_next_steps.map .str)),
        (lc "disclaimer", .str r.disclaimer) ]) :=
    (ser_safe _).2.2 _ le_rfl hclean
  have hpre : preprocess (serializeResponse r) = serializeResponse r :=
    preprocess_ser_obj _
  have hext : extract_candidate (serializeResponse r) = some (serializeResponse r) :=
    extract_ser_obj _ hsafe
  have htl : try_load (serializeResponse r) = some (respToJson r) :=
    try_load_ser (respToJson r) hclean
  have hresc := rescueParsed_resp r
  have hval := validateResponse_resp r
  simp only [parse_and_validate_json, parsed_and_rescued, hpre, hext, htl, hresc, hval]

/-- Claim C8 (divergence witness): the round-trip does not hold for every
validator-producible `SymptomResponse`.  `c8Bad` is produced by the validator
(first conjunct), but its `input` string contains `}`, which the extractor's
depth scan — blind to string literals — treats as a closing brace: the brace
candidate is truncated, the longest candidate is the `probable_conditions`
array, and the rescue step then fails on a top-level list, so re-parsing the
serialization returns an `AttributeError` instead of the record. -/
theorem roundtrip_cex :
    validateResponse (respToJson c8Bad) = .ok c8Bad ∧
    parse_and_validate_json (serializeResponse c8Bad) = .error .attrError := ⟨rfl, rfl⟩

/-- Claim C8, amended: for every `SymptomResponse` whose strings are clean —
no raw control characters and no brace/bracket characters, so that the
serialization is strict JSON whose only brace structure is its own — the
round-trip holds: serializing the record and re-parsing the text through the
extract → repair → rescue → validate pipeline of `parse_and_validate_json`
returns exactly the original record. -/
theorem roundtrip_amended (r : SymptomResponse) (h : respClean r = true) :
    parse_and_validate_json (serializeResponse r) = .ok r :=
  parse_and_validate_ser r (cleanJson_resp r h)

/-- Witness for C8's amended round-trip at the concrete clean response
`c8Good`. -/
theorem roundtrip_amended_witness :
    respClean c8Good = true ∧
    parse_and_validate_json (serializeResponse c8Good) = .ok c8Good :=
  ⟨by decide, roundtrip_amended c8Good (by decide)⟩
